import Mathlib

/-!
Verification development for the market_feed repository.

This file gives a shallow embedding of the feed manager (manager.py), the
adapter contract (base.py) and the Bloomberg and Deribit adapters
(adapters/bloomberg.py, adapters/deribit.py), together with theorems that
settle the specification claims about them.

Modelling conventions:
* Python strings are lists of characters (PyStr).
* Python dicts are insertion-ordered association lists; dictSet replaces the
  value of an existing key in place and appends new keys at the end, exactly
  like CPython dicts.
* Python floats are exact rationals.  The double-rounding of IEEE arithmetic
  is not modelled; every claim proved here compares the same arithmetic
  expressions on both sides, so the rounding is inert.
* Network and library input (REST responses, blpapi events) is passed in as
  explicit parameters.
* Fallible code returns Except values; a raised exception is an error value
  and leaves the pre-call state in place.
-/

/- The core rational operations are marked irreducible, which blocks the
whnf evaluation the decide tactic performs on closed goals; the kernel
reduces them fine.  Restore semireducibility for this development. -/
attribute [local semireducible] Rat.mul Rat.add Rat.inv Rat.sub

/-- Python strings, modelled as lists of characters. -/
abbrev PyStr := List Char

/-- Convenience injection from Lean string literals. -/
def S (s : String) : PyStr := s.toList

/-- ASCII digit test, the fragment of the regex class backslash-d used by the
source (all strings involved are ASCII). -/
def isDigitCh (c : Char) : Bool := decide ('0' ≤ c) && decide (c ≤ '9')

/-- ASCII letter test. -/
def isAlphaCh (c : Char) : Bool :=
  (decide ('A' ≤ c) && decide (c ≤ 'Z')) || (decide ('a' ≤ c) && decide (c ≤ 'z'))

/-- The regex word class backslash-w restricted to ASCII. -/
def isWordCh (c : Char) : Bool := isAlphaCh c || isDigitCh c || decide (c = '_')

/-- The regex space class backslash-s restricted to ASCII. -/
def isSpaceCh (c : Char) : Bool :=
  decide (c = ' ') || decide (c = '\t') || decide (c = '\n') || decide (c = '\r')

/-- Digit or dot, the regex class used for the Bloomberg strike group. -/
def isDigitDotCh (c : Char) : Bool := isDigitCh c || decide (c = '.')

/-- The character of a single decimal digit. -/
def digitCh (n : Nat) : Char := Char.ofNat (48 + n)

/-- Numeric value of an ASCII digit character. -/
def digitVal (c : Char) : Nat := c.toNat - 48

/-- Two-digit zero-padded decimal rendering, as produced by strftime with
the directives d, m and y. -/
def pad2 (n : Nat) : PyStr := [digitCh (n / 10), digitCh (n % 10)]

/-- Value of a string of decimal digits (the empty string gives 0, matching
its use for the integer and fraction parts of a float literal). -/
def natOfDigits (ds : PyStr) : Nat := ds.foldl (fun acc c => 10 * acc + digitVal c) 0

/-- Decimal digits of a natural number, least significant first (structural
recursion on a fuel bound so that the kernel can evaluate it). -/
def natDigitsRevAux : Nat → Nat → PyStr
  | 0, n => [digitCh n]
  | fuel + 1, n =>
    if n < 10 then [digitCh n] else digitCh (n % 10) :: natDigitsRevAux fuel (n / 10)

/-- Decimal digits of a natural number, least significant first. -/
def natDigitsRev (n : Nat) : PyStr := natDigitsRevAux n n

/-- Decimal rendering of a natural number. -/
def natToStr (n : Nat) : PyStr := (natDigitsRev n).reverse

/-- ASCII upper-casing of one character, as in the str.upper method. -/
def toUpperCh (c : Char) : Char :=
  if decide ('a' ≤ c) && decide (c ≤ 'z') then Char.ofNat (c.toNat - 32) else c

/-- ASCII lower-casing of one character, as in the str.lower method. -/
def toLowerCh (c : Char) : Char :=
  if decide ('A' ≤ c) && decide (c ≤ 'Z') then Char.ofNat (c.toNat + 32) else c

/-- The str.upper method (ASCII fragment). -/
def pyUpper (s : PyStr) : PyStr := s.map toUpperCh

/-- The str.lower method (ASCII fragment). -/
def pyLower (s : PyStr) : PyStr := s.map toLowerCh

/-- Membership of a character in a string, the Python operator in. -/
def containsCh (s : PyStr) (c : Char) : Bool := s.any (fun x => decide (x = c))

/-- The str.startswith method. -/
def startsWithSeq : PyStr → PyStr → Bool
  | _, [] => true
  | [], _ :: _ => false
  | c :: s, p :: ps => decide (c = p) && startsWithSeq s ps

/-- Substring containment, the Python operator in on strings. -/
def containsSeq : PyStr → PyStr → Bool
  | [], pat => startsWithSeq [] pat
  | s@(_ :: t), pat => startsWithSeq s pat || containsSeq t pat

/-- The str.split method with a single-character separator. -/
def splitOnCh (sep : Char) : PyStr → List PyStr
  | [] => [[]]
  | c :: rest =>
    match splitOnCh sep rest with
    | [] => [[]]
    | g :: gs => if c = sep then [] :: g :: gs else (c :: g) :: gs

/-- Longest prefix of characters satisfying p (greedy regex repetition over a
character class; the classes used here are pairwise disjoint from their
successors, so maximal munch agrees with the backtracking engine). -/
def takeW (p : Char → Bool) : PyStr → PyStr
  | [] => []
  | c :: r => if p c then c :: takeW p r else []

/-- Remainder after takeW. -/
def dropW (p : Char → Bool) : PyStr → PyStr
  | [] => []
  | c :: r => if p c then dropW p r else c :: r

/-- The str.rsplit method with separator dot and maxsplit 1, for strings that
contain a dot. -/
def rsplitDot (s : PyStr) : PyStr × PyStr :=
  match s.reverse.span (fun c => decide (c ≠ '.')) with
  | (suf, _ :: pre) => (pre.reverse, suf.reverse)
  | (_, []) => (s, [])

/-- Python dict lookup (returning none for a missing key). -/
def dictGet {κ α : Type} [DecidableEq κ] : List (κ × α) → κ → Option α
  | [], _ => none
  | p :: rest, k => if p.1 = k then some p.2 else dictGet rest k

/-- Python dict item assignment: replaces the value of an existing key in
place, appends a new key at the end (CPython insertion order). -/
def dictSet {κ α : Type} [DecidableEq κ] : List (κ × α) → κ → α → List (κ × α)
  | [], k, v => [(k, v)]
  | p :: rest, k, v => if p.1 = k then (k, v) :: rest else p :: dictSet rest k v

/-- In-place update of the value stored under an existing key. -/
def dictUpd {κ α : Type} [DecidableEq κ] (d : List (κ × α)) (k : κ) (f : α → α) :
    List (κ × α) :=
  d.map (fun p => if p.1 = k then (p.1, f p.2) else p)

/-! ## Dates

The source uses datetime.strptime and strftime with the directives d, b, m
and y.  The parsers below follow the regular expressions CPython compiles for
those directives (module Lib/_strptime.py): d matches 3[01], [12] digit,
0[1-9] or [1-9]; m matches 1[0-2], 0[1-9] or [1-9]; b matches a three-letter
English month abbreviation case-insensitively; y matches exactly two digits,
values up to 68 meaning 20xx and the rest 19xx.  After the regex match,
datetime construction validates the day against the month length.  A failed
parse raises ValueError, modelled as none. -/

structure PyDate where
  year : Nat
  month : Nat
  day : Nat
deriving DecidableEq, Repr

/-- Gregorian leap-year rule used by datetime. -/
def isLeapYear (y : Nat) : Bool :=
  y % 4 = 0 && (y % 100 ≠ 0 || y % 400 = 0)

/-- Length of a month. -/
def daysInMonth (y m : Nat) : Nat :=
  if m = 2 then (if isLeapYear y then 29 else 28)
  else if m = 4 ∨ m = 6 ∨ m = 9 ∨ m = 11 then 30
  else 31

/-- Century mapping of the strptime directive y. -/
def century (y2 : Nat) : Nat := if y2 ≤ 68 then 2000 + y2 else 1900 + y2

/-- The strptime directive d: day of month, one or two digits, 1 to 31. -/
def parse_d : PyStr → Option (Nat × PyStr)
  | c1 :: c2 :: rest =>
    if decide (c1 = '3') && (decide (c2 = '0') || decide (c2 = '1')) then
      some (30 + digitVal c2, rest)
    else if (decide (c1 = '1') || decide (c1 = '2')) && isDigitCh c2 then
      some (10 * digitVal c1 + digitVal c2, rest)
    else if decide (c1 = '0') && decide ('1' ≤ c2) && decide (c2 ≤ '9') then
      some (digitVal c2, rest)
    else if decide ('1' ≤ c1) && decide (c1 ≤ '9') then
      some (digitVal c1, c2 :: rest)
    else none
  | [c1] => if decide ('1' ≤ c1) && decide (c1 ≤ '9') then some (digitVal c1, []) else none
  | [] => none

/-- The strptime directive m: month number, one or two digits, 1 to 12. -/
def parse_m : PyStr → Option (Nat × PyStr)
  | c1 :: c2 :: rest =>
    if decide (c1 = '1') && (decide (c2 = '0') || decide (c2 = '1') || decide (c2 = '2')) then
      some (10 + digitVal c2, rest)
    else if decide (c1 = '0') && decide ('1' ≤ c2) && decide (c2 ≤ '9') then
      some (digitVal c2, rest)
    else if decide ('1' ≤ c1) && decide (c1 ≤ '9') then
      some (digitVal c1, c2 :: rest)
    else none
  | [c1] => if decide ('1' ≤ c1) && decide (c1 ≤ '9') then some (digitVal c1, []) else none
  | [] => none

/-- The strptime directive y: exactly two digits. -/
def parse_y2 : PyStr → Option (Nat × PyStr)
  | c1 :: c2 :: rest =>
    if isDigitCh c1 && isDigitCh c2 then some (10 * digitVal c1 + digitVal c2, rest) else none
  | _ => none

/-- Upper-case three-letter month abbreviations, index 1 to 12. -/
def monthUpperAbbrevs : List PyStr :=
  [S "JAN", S "FEB", S "MAR", S "APR", S "MAY", S "JUN",
   S "JUL", S "AUG", S "SEP", S "OCT", S "NOV", S "DEC"]

/-- Mixed-case month abbreviations as produced by strftime directive b in the
C locale. -/
def monthMixedAbbrevs : List PyStr :=
  [S "Jan", S "Feb", S "Mar", S "Apr", S "May", S "Jun",
   S "Jul", S "Aug", S "Sep", S "Oct", S "Nov", S "Dec"]

/-- Upper-case abbreviation of month m (1 to 12). -/
def monthU (m : Nat) : PyStr := monthUpperAbbrevs.getD (m - 1) (S "JAN")

/-- Mixed-case abbreviation of month m (1 to 12). -/
def monthMixed (m : Nat) : PyStr := monthMixedAbbrevs.getD (m - 1) (S "Jan")

def monthIndexAux : List PyStr → Nat → PyStr → Option Nat
  | [], _, _ => none
  | a :: rest, i, key => if a = key then some i else monthIndexAux rest (i + 1) key

/-- Month number of an upper-cased three-letter key. -/
def monthIndex (key : PyStr) : Option Nat := monthIndexAux monthUpperAbbrevs 1 key

/-- The strptime directive b: case-insensitive three-letter month
abbreviation. -/
def parse_b : PyStr → Option (Nat × PyStr)
  | c1 :: c2 :: c3 :: rest =>
    match monthIndex [toUpperCh c1, toUpperCh c2, toUpperCh c3] with
    | some m => some (m, rest)
    | none => none
  | _ => none

/-- datetime.strptime with format d b y, as used on canonical date tokens
such as 20FEB26.  Requires the whole string to be consumed and the day to be
valid for the month, else ValueError (none). -/
def strptime_dby (s : PyStr) : Option PyDate :=
  match parse_d s with
  | some (day, r1) =>
    match parse_b r1 with
    | some (mon, r2) =>
      match parse_y2 r2 with
      | some (y2, r3) =>
        if r3 = [] ∧ day ≤ daysInMonth (century y2) mon then
          some ⟨century y2, mon, day⟩
        else none
      | none => none
    | none => none
  | none => none

/-- datetime.strptime with format m/d/y, as used on Bloomberg date tokens
such as 02/20/26. -/
def strptime_mdy (s : PyStr) : Option PyDate :=
  match parse_m s with
  | some (mon, '/' :: r1) =>
    match parse_d r1 with
    | some (day, '/' :: r2) =>
      match parse_y2 r2 with
      | some (y2, r3) =>
        if r3 = [] ∧ day ≤ daysInMonth (century y2) mon then
          some ⟨century y2, mon, day⟩
        else none
      | none => none
    | _ => none
  | _ => none

/-- strftime with format m/d/y (zero-padded). -/
def strftime_mdy (d : PyDate) : PyStr :=
  pad2 d.month ++ '/' :: pad2 d.day ++ '/' :: pad2 (d.year % 100)

/-- strftime with format d b y (zero-padded day, mixed-case month). -/
def strftime_dby (d : PyDate) : PyStr :=
  pad2 d.day ++ monthMixed d.month ++ pad2 (d.year % 100)

/-- Days between the first of January of two years, a ≤ b (structural
recursion on the year difference so that the kernel can evaluate it). -/
def daysBetweenYearsAux : Nat → Nat → Nat → Nat
  | 0, _, _ => 0
  | fuel + 1, a, b =>
    if b ≤ a then 0
    else (if isLeapYear a then 366 else 365) + daysBetweenYearsAux fuel (a + 1) b

/-- Days between the first of January of two years, a ≤ b. -/
def daysBetweenYears (a b : Nat) : Nat := daysBetweenYearsAux (b - a) a b

/-- Days from the first of January to the first of month m of year y. -/
def daysBeforeMonth (y m : Nat) : Nat :=
  match m with
  | 0 => 0
  | n + 1 => if n = 0 then 0 else daysBeforeMonth y n + daysInMonth y n

/-- Days since the Unix epoch of a date (negative before 1970).  The source
computes datetime.timestamp of a naive datetime, which depends on the local
time zone; no claim depends on the exact value, so UTC midnight is used. -/
def epochDays (d : PyDate) : Int :=
  (if 1970 ≤ d.year then (daysBetweenYears 1970 d.year : Int)
   else -(daysBetweenYears d.year 1970 : Int))
  + daysBeforeMonth d.year d.month + (d.day : Int) - 1

/-! ## Python floats

float() on the digit-and-dot strings reachable from the call sites modelled
here: an integer part, an optional dot, and a fraction part, at least one
digit overall.  The sign, exponent and special forms of the full builtin are
not produced by any modelled call site.  The resulting value is kept as an
exact rational; see the file header for the treatment of double rounding. -/

def pyFloat (s : PyStr) : Option ℚ :=
  let ipart := takeW isDigitCh s
  match dropW isDigitCh s with
  | [] => if ipart = [] then none else some (natOfDigits ipart : ℚ)
  | '.' :: frac =>
    if frac.all isDigitCh ∧ (ipart ≠ [] ∨ frac ≠ []) then
      some ((natOfDigits ipart : ℚ) + (natOfDigits frac : ℚ) / 10 ^ frac.length)
    else none
  | _ => none

/-- Floor of the base-10 logarithm of a positive natural number (structural
recursion on a fuel bound so that the kernel can evaluate it). -/
def natLog10Aux : Nat → Nat → Nat
  | 0, _ => 0
  | fuel + 1, n => if n < 10 then 0 else natLog10Aux fuel (n / 10) + 1

/-- Floor of the base-10 logarithm of a positive natural number. -/
def natLog10 (n : Nat) : Nat := natLog10Aux n n

/-- Floor of the base-10 logarithm of a positive rational. -/
def floorLog10 (q : ℚ) : Int :=
  let n := q.num.natAbs
  let d := q.den
  let e0 : Int := (natLog10 n : Int) - (natLog10 d : Int)
  if q < 10 ^ e0 then e0 - 1 else if 10 ^ (e0 + 1) ≤ q then e0 + 1 else e0

/-- Round to nearest integer, ties to even (the rounding printf applies to
the exact value being formatted). -/
def roundHalfEven (x : ℚ) : Int :=
  let f := ⌊x⌋
  let r := x - (f : ℚ)
  if r < 1 / 2 then f
  else if 1 / 2 < r then f + 1
  else if f % 2 = 0 then f else f + 1

/-- Strip trailing zero digits. -/
def stripTrailingZeros (ds : PyStr) : PyStr :=
  (dropW (fun c => decide (c = '0')) ds.reverse).reverse

/-- printf %g for a positive rational: six significant digits, trailing
zeros stripped, fixed-point form for decimal exponents in [-4, 6), exponent
form otherwise with a sign and an at-least-two-digit exponent. -/
def formatGPos (q : ℚ) : PyStr :=
  let e := floorLog10 q
  let m := roundHalfEven (q * 10 ^ ((5 : Int) - e))
  let me := if m = 10 ^ 6 then (((10 : Int) ^ 5 : Int), e + 1) else (m, e)
  let ds := stripTrailingZeros (natToStr me.1.toNat)
  let e := me.2
  if -4 ≤ e ∧ e < 6 then
    if 0 ≤ e then
      if ds.length ≤ e.toNat + 1 then ds ++ List.replicate (e.toNat + 1 - ds.length) '0'
      else ds.take (e.toNat + 1) ++ '.' :: ds.drop (e.toNat + 1)
    else '0' :: '.' :: List.replicate (e.natAbs - 1) '0' ++ ds
  else
    let mant := match ds with
      | [] => ['0']
      | d0 :: rest => if rest = [] then [d0] else d0 :: '.' :: rest
    let esign := if e < 0 then '-' else '+'
    let eabs := e.natAbs
    let edigits := if eabs < 10 then '0' :: natToStr eabs else natToStr eabs
    mant ++ 'e' :: esign :: edigits

/-- The format specifier g applied to a float, as in the f-string of
BloombergAdapter parse_bbg_to_app. -/
def formatG (q : ℚ) : PyStr :=
  if q = 0 then ['0'] else if q < 0 then '-' :: formatGPos (-q) else formatGPos q

/-! ## Data model (base.py and the dict payloads of manager.py) -/

/-- One entry of market_config.  The source reads tab_name, base_symbol and
settlement by indexing and source via dict.get with default, so source is
optional here. -/
structure TabConfig where
  tab_name : PyStr
  base_symbol : PyStr
  settlement : PyStr
  source : Option PyStr
deriving DecidableEq, Repr

/-- An instrument record: the dict stored in instruments_by_tab.  Bloomberg
records carry the fields below; expiration_timestamp is absent for
non-option references. -/
structure InstRecord where
  instrument_name : PyStr
  expiration_timestamp : Option ℚ
  base_currency : Option PyStr
  quote_currency : Option PyStr
deriving DecidableEq, Repr

/-- Opaque stats mapping of a ticker, passed through unchanged. -/
abbrev Stats := List (PyStr × ℚ)

/-- The normalized ticker dict built by FeedManager.ingest_ticker. -/
structure TickerD where
  instrument_name : PyStr
  best_bid_price : Option ℚ
  best_bid_amount : Option ℚ
  best_ask_price : Option ℚ
  best_ask_amount : Option ℚ
  last_price : Option ℚ
  stats : Stats
  ts : Option ℚ
deriving DecidableEq, Repr

/-- The raw ticker dict delivered to ingest_ticker.  A missing
instrument_name key is modelled as none and raises KeyError at the first
line of ingest_ticker. -/
structure RawTicker where
  instrument_name : Option PyStr
  best_bid_price : Option ℚ
  best_bid_amount : Option ℚ
  best_ask_price : Option ℚ
  best_ask_amount : Option ℚ
  last_price : Option ℚ
  stats : Option Stats
  timestamp : Option ℚ
  index_price : Option ℚ
deriving DecidableEq, Repr

/-- Python exceptions raised by the modelled code. -/
inductive PyErr
  | keyError
  | attributeError
  | valueError
deriving DecidableEq, Repr

/-- A request sent on an adapter transport. -/
inductive SentMsg
  | deribitSub (channels : List PyStr)
  | bbgSub (subs : List (PyStr × PyStr))
deriving DecidableEq, Repr

/-! ## Bloomberg adapter (adapters/bloomberg.py) -/

/-- Instance state of BloombergAdapter.  hasBlpapi models the module-level
HAS_BLPAPI flag, hasSession whether self.session is set.  exactMap,
indexTickers and futurePrefixes are the translation configuration loaded in
load_config; activeSubscriptions is the per-session dedup set (kept as a
list in insertion order). -/
structure BbgState where
  hasBlpapi : Bool
  hasSession : Bool
  connected : Bool
  exactMap : List (PyStr × PyStr)
  indexTickers : List PyStr
  futurePrefixes : List PyStr
  activeSubscriptions : List PyStr
deriving DecidableEq, Repr

/-- BloombergAdapter to_bbg_option_ticker: canonical option name to
Bloomberg ticker.  Splits on the dash; tuple unpacking of a part count other
than four, or a date that strptime rejects, raises inside the try block and
yields None. -/
def to_bbg_option_ticker (app : PyStr) : Option PyStr :=
  let parts := splitOnCh '-' app
  if parts.length < 4 then none
  else match parts with
    | [sym, dateStr, strike, kind] =>
      match strptime_dby dateStr with
      | none => none
      | some d =>
        some (sym ++ ' ' :: S "US" ++ ' ' :: strftime_mdy d ++ ' ' :: kind ++ strike
              ++ ' ' :: S "Equity")
    | _ => none

/-- Match of bbg_regex, the anchored option pattern of bloomberg.py line 37:
word, spaces, word, spaces, a 1-2 digit / 1-2 digit / 2 digit date group,
spaces, C or P, a nonempty digit-or-dot strike group, spaces, Equity or
Index, end.  The matcher is maximal-munch per group; each repeated class is
disjoint from the character that must follow it, so this agrees with the
backtracking regex engine.  Returns (symbol, date group, kind, strike
group). -/
def bbgRegexMatch (s : PyStr) : Option (PyStr × PyStr × Char × PyStr) :=
  let sym := takeW isWordCh s
  if sym = [] then none else
  let r1 := dropW isWordCh s
  if takeW isSpaceCh r1 = [] then none else
  let r2 := dropW isSpaceCh r1
  if takeW isWordCh r2 = [] then none else
  let r3 := dropW isWordCh r2
  if takeW isSpaceCh r3 = [] then none else
  let r4 := dropW isSpaceCh r3
  let a := takeW isDigitCh r4
  if a = [] ∨ 2 < a.length then none else
  match dropW isDigitCh r4 with
  | '/' :: r5 =>
    let b := takeW isDigitCh r5
    if b = [] ∨ 2 < b.length then none else
    (match dropW isDigitCh r5 with
     | '/' :: r6 =>
       let c := takeW isDigitCh r6
       if c.length = 2 then
         let r7 := dropW isDigitCh r6
         if takeW isSpaceCh r7 = [] then none else
         (match dropW isSpaceCh r7 with
          | k :: r8 =>
            if k = 'C' ∨ k = 'P' then
              let strike := takeW isDigitDotCh r8
              if strike = [] then none else
              let r9 := dropW isDigitDotCh r8
              if takeW isSpaceCh r9 = [] then none else
              let r10 := dropW isSpaceCh r9
              if r10 = S "Equity" ∨ r10 = S "Index" then
                some (sym, a ++ '/' :: b ++ '/' :: c, k, strike)
              else none
            else none
          | [] => none)
       else none
     | _ => none)
  | _ => none

/-- Match of bbg_underlying_regex, bloomberg.py line 41: word, spaces, an
optional word-plus-spaces group, then Equity, Index or Comdty, end.  The two
alternatives (with and without the optional group) succeed on disjoint
inputs, so trying them in either order agrees with the engine.  Returns the
first group. -/
def bbgUnderlyingMatch (s : PyStr) : Option PyStr :=
  let sym := takeW isWordCh s
  if sym = [] then none else
  let r1 := dropW isWordCh s
  if takeW isSpaceCh r1 = [] then none else
  let r2 := dropW isSpaceCh r1
  if r2 = S "Equity" ∨ r2 = S "Index" ∨ r2 = S "Comdty" then some sym
  else
    if takeW isWordCh r2 = [] then none else
    let r3 := dropW isWordCh r2
    if takeW isSpaceCh r3 = [] then none else
    let r4 := dropW isSpaceCh r3
    if r4 = S "Equity" ∨ r4 = S "Index" ∨ r4 = S "Comdty" then some sym else none

/-- BloombergAdapter parse_bbg_to_app.  The option branch parses the date
inside a try (failure returns None) but converts the strike with float()
outside it, so an unparseable strike group raises ValueError; the fallback
branch recognises underlyings and returns a record without
expiration_timestamp. -/
def parse_bbg_to_app (s : PyStr) : Except PyErr (Option InstRecord) :=
  match bbgRegexMatch s with
  | some (sym, dateStr, kind, strikeStr) =>
    match strptime_mdy dateStr with
    | none => .ok none
    | some d =>
      let appDate := pyUpper (strftime_dby d)
      let expTs : ℚ := (epochDays d : ℚ) * 86400000
      match pyFloat strikeStr with
      | none => .error .valueError
      | some q =>
        .ok (some { instrument_name := sym ++ '-' :: appDate ++ '-' :: formatG q ++ ['-', kind],
                    expiration_timestamp := some expTs,
                    base_currency := some sym,
                    quote_currency := some (S "USD") })
  | none =>
    match bbgUnderlyingMatch s with
    | some sym =>
      .ok (some { instrument_name := sym, expiration_timestamp := none,
                  base_currency := some sym, quote_currency := some (S "USD") })
    | none => .ok none

/-- Last character is an ASCII digit (name[-1].isdigit(); the IndexError on
an empty name is unreachable because startswith with a nonempty prefix has
already failed and the and operator short-circuits). -/
def lastIsDigit (s : PyStr) : Bool :=
  match s.getLast? with
  | some c => isDigitCh c
  | none => false

/-- BloombergAdapter convert_to_bbg: exact-map override, canonical option
form, dotted international equity, plain symbol (index set, future-prefix
rule, default US equity), and passthrough. -/
def convert_to_bbg (a : BbgState) (name : PyStr) : Option PyStr :=
  match dictGet a.exactMap name with
  | some v => some v
  | none =>
    if containsCh name '-' then to_bbg_option_ticker name
    else if containsCh name '.' then
      let p := rsplitDot name
      some (p.1 ++ ' ' :: p.2 ++ ' ' :: S "Equity")
    else if !containsCh name ' ' then
      if name ∈ a.indexTickers then some (name ++ ' ' :: S "Index")
      else if a.futurePrefixes.any (fun fp => startsWithSeq name fp && lastIsDigit name) then
        some (name ++ ' ' :: S "Index")
      else some (name ++ ' ' :: S "US Equity")
    else some name

/-- One iteration of the subscription loop of BloombergAdapter.subscribe:
translate, skip names whose translation failed or is already in
active_subscriptions, otherwise record the (vendor ticker, correlation id)
pair and add the vendor ticker to the set. -/
def bbgSubStep (a : BbgState) (acc : BbgState × List (PyStr × PyStr)) (app : PyStr) :
    BbgState × List (PyStr × PyStr) :=
  match convert_to_bbg a app with
  | none => acc
  | some bbg =>
    if bbg ∈ acc.1.activeSubscriptions then acc
    else ({ acc.1 with activeSubscriptions := acc.1.activeSubscriptions ++ [bbg] },
          acc.2 ++ [(bbg, app)])

/-- BloombergAdapter.subscribe: returns the new adapter state and the
requests sent on the transport (one batched request when at least one new
topic was added, none otherwise; nothing at all without a session or the
blpapi library). -/
def bloomberg_subscribe (a : BbgState) (instruments : List PyStr) :
    BbgState × List SentMsg :=
  if !a.hasSession || !a.hasBlpapi then (a, [])
  else
    let r := instruments.foldl (bbgSubStep a) (a, [])
    if 0 < r.2.length then (r.1, [.bbgSub r.2]) else (r.1, [])

/-- The inner loop of BloombergAdapter.get_option_chain over the Security
Description strings of the OPT_CHAIN field: parse immediately, append when
the parse produced a record. -/
def processChain : List PyStr → Except PyErr (List InstRecord)
  | [] => .ok []
  | rawStr :: rest =>
    match parse_bbg_to_app rawStr with
    | .error e => .error e
    | .ok none => processChain rest
    | .ok (some rec) =>
      match processChain rest with
      | .error e => .error e
      | .ok l => .ok (rec :: l)

/-- BloombergAdapter.get_option_chain, with the chain entries received from
the session passed in as rawChain (a failed session start or timeout
corresponds to an empty list). -/
def bloomberg_get_option_chain (a : BbgState) (rawChain : List PyStr) :
    Except PyErr (List InstRecord) :=
  if !a.hasBlpapi then .ok [] else processChain rawChain

/-! ## Deribit adapter (adapters/deribit.py) -/

/-- Instance state of DeribitAdapter: the exact-map translation config and
the connection flags (wsConnected models self.ws and self.ws.sock and
self.ws.sock.connected). -/
structure DeribitState where
  exactMap : List (PyStr × PyStr)
  reverseMap : List (PyStr × PyStr)
  connected : Bool
  wsConnected : Bool
deriving DecidableEq, Repr

/-- DeribitAdapter.subscribe: maps each input through exact_map, wraps it as
ticker.NAME.100ms, and sends one request when the websocket is connected.
There is no dedup set in this adapter. -/
def deribit_subscribe (a : DeribitState) (instruments : List PyStr) : List SentMsg :=
  let mapped := instruments.map (fun i => (dictGet a.exactMap i).getD i)
  let channels := mapped.map (fun i => S "ticker." ++ i ++ S ".100ms")
  if a.wsConnected then [.deribitSub channels] else []

/-- DeribitAdapter.get_reference_tickers. -/
def deribit_get_reference_tickers (cfg : TabConfig) : List PyStr :=
  if cfg.settlement = S "usd" then
    [cfg.base_symbol ++ S "_USDC", cfg.base_symbol ++ S "_USDC-PERPETUAL"]
  else
    [cfg.base_symbol ++ S "-PERPETUAL", cfg.base_symbol ++ S "_USDC"]

/-! ## Adapters as seen by the manager -/

inductive Adapter
  | deribit (st : DeribitState)
  | bloomberg (st : BbgState)
deriving DecidableEq, Repr

/-- The connected property of the base ExchangeAdapter class. -/
def Adapter.connected : Adapter → Bool
  | .deribit st => st.connected
  | .bloomberg st => st.connected

/-- get_reference_tickers of each adapter (BloombergAdapter returns just the
base symbol). -/
def Adapter.refTickers : Adapter → TabConfig → List PyStr
  | .deribit _, cfg => deribit_get_reference_tickers cfg
  | .bloomberg _, cfg => [cfg.base_symbol]

/-- Python attribute lookup for a method named get_instruments on an adapter
instance.  FeedManager bootstrap_instruments (manager.py line 173) calls
adapter.get_instruments(cfg), but neither DeribitAdapter, BloombergAdapter
nor the abstract base ExchangeAdapter defines a method of that name (the
chain fetchers defined by the contract and both adapters are named
get_option_chain), so the lookup raises AttributeError for every adapter
kind. -/
def getInstrumentsMethod : Adapter → Option (TabConfig → List InstRecord)
  | .deribit _ => none
  | .bloomberg _ => none

/-! ## Feed manager (manager.py) -/

/-- Shared state of FeedManager: tickers, index_prices, instruments_by_tab,
instrument_sets (sets kept as insertion-ordered lists), market_config and
the adapters map. -/
structure MgrState where
  tickers : List (PyStr × TickerD)
  indexPrices : List (PyStr × ℚ)
  instrumentsByTab : List (PyStr × List InstRecord)
  instrumentSets : List (PyStr × List PyStr)
  marketConfig : List TabConfig
  adapters : List (PyStr × Adapter)
deriving DecidableEq, Repr

/-- cfg.get("source", "deribit").lower(), the adapter key of a tab. -/
def sourceOf (cfg : TabConfig) : PyStr := pyLower (cfg.source.getD (S "deribit"))

/-- The MarketSnapshot dataclass of base.py.  In this value-level model the
copy depth of get_snapshot is invisible; the reference-level model further
below (MgrRefState) makes it explicit. -/
structure MarketSnapshot where
  is_ready : Bool
  index_prices : List (PyStr × ℚ)
  tickers : List (PyStr × TickerD)
  config : List TabConfig
  instruments_by_tab : List (PyStr × List InstRecord)
deriving DecidableEq, Repr

/-- FeedManager.get_snapshot (value level). -/
def get_snapshot (m : MgrState) : MarketSnapshot :=
  { is_ready := m.adapters.any (fun p => p.2.connected),
    index_prices := m.indexPrices,
    tickers := m.tickers,
    config := m.marketConfig,
    instruments_by_tab := m.instrumentsByTab }

/-- Lock events of one call, used to express where an exception interrupts
the statement sequence. -/
inductive LockEvt
  | acquire
  | release
deriving DecidableEq, Repr

/-- Result of a call into the manager: the state after the call (the prior
state when an exception was raised before any mutation), the exception if
one was raised, and the lock events that happened. -/
structure IngestResult where
  state : MgrState
  err : Option PyErr
  evts : List LockEvt
deriving DecidableEq, Repr

/-- raw.get("index_price") or raw.get("last_price") or 0: Python or
coalesces on falsy values, so an absent or zero index_price falls through
to last_price and an absent or zero last_price to 0. -/
def chosenPx (raw : RawTicker) : ℚ :=
  match raw.index_price with
  | some v => if v ≠ 0 then v
              else match raw.last_price with
                   | some w => if w ≠ 0 then w else 0
                   | none => 0
  | none =>
    match raw.last_price with
    | some w => if w ≠ 0 then w else 0
    | none => 0

/-- FeedManager.ingest_ticker.  The subscript raw_data["instrument_name"]
on the first line raises KeyError before the with-lock block is entered;
otherwise the normalized ticker is stored and, for names containing
PERPETUAL or USDC, a positive coalesced price is written to
index_prices. -/
def ingest_ticker (m : MgrState) (raw : RawTicker) : IngestResult :=
  match raw.instrument_name with
  | none => { state := m, err := some .keyError, evts := [] }
  | some nm =>
    let norm : TickerD :=
      { instrument_name := nm,
        best_bid_price := raw.best_bid_price,
        best_bid_amount := raw.best_bid_amount,
        best_ask_price := raw.best_ask_price,
        best_ask_amount := raw.best_ask_amount,
        last_price := raw.last_price,
        stats := raw.stats.getD [],
        ts := raw.timestamp }
    let m1 := { m with tickers := dictSet m.tickers nm norm }
    let m2 :=
      if containsSeq nm (S "PERPETUAL") || containsSeq nm (S "USDC") then
        let px := chosenPx raw
        if 0 < px then { m1 with indexPrices := dictSet m1.indexPrices nm px } else m1
      else m1
    { state := m2, err := none, evts := [.acquire, .release] }

/-- Inner loop body of FeedManager bootstrap_prices over the reference
tickers of one tab: store the fetched price only when it is positive.  The
float returned by adapter.get_latest_price is network input, passed in as
the oracle latest. -/
def bootPriceTick (latest : Adapter → PyStr → ℚ) (a : Adapter) (st : MgrState)
    (t : PyStr) : MgrState :=
  let px := latest a t
  if 0 < px then { st with indexPrices := dictSet st.indexPrices t px } else st

/-- Outer loop body of FeedManager bootstrap_prices over market_config. -/
def bootPriceCfg (latest : Adapter → PyStr → ℚ) (adapters : List (PyStr × Adapter))
    (st : MgrState) (cfg : TabConfig) : MgrState :=
  match dictGet adapters (sourceOf cfg) with
  | none => st
  | some a => (a.refTickers cfg).foldl (bootPriceTick latest a) st

/-- FeedManager bootstrap_prices. -/
def bootstrap_prices (latest : Adapter → PyStr → ℚ) (m : MgrState) : MgrState :=
  m.marketConfig.foldl (bootPriceCfg latest m.adapters) m

/-- The merge loop of FeedManager bootstrap_instruments (manager.py lines
175-180): append each record whose instrument_name is not yet in the dedup
set of the tab.  Indexing instrument_sets or instruments_by_tab with an
unknown tab raises KeyError. -/
def merge_instruments (st : MgrState) (tab : PyStr) :
    List InstRecord → Except PyErr MgrState
  | [] => .ok st
  | inst :: rest =>
    match dictGet st.instrumentSets tab with
    | none => .error .keyError
    | some setL =>
      if inst.instrument_name ∈ setL then merge_instruments st tab rest
      else
        match dictGet st.instrumentsByTab tab with
        | none => .error .keyError
        | some lst =>
          merge_instruments
            { st with
              instrumentSets := dictSet st.instrumentSets tab (setL ++ [inst.instrument_name]),
              instrumentsByTab := dictSet st.instrumentsByTab tab (lst ++ [inst]) }
            tab rest

/-- Loop of FeedManager bootstrap_instruments over market_config: tabs whose
source has no registered adapter are skipped; for the rest the code calls
adapter.get_instruments(cfg), whose attribute lookup fails (see
getInstrumentsMethod), so the AttributeError propagates before any merge. -/
def bootstrapInstAux : MgrState → List TabConfig → Except PyErr MgrState
  | st, [] => .ok st
  | st, cfg :: rest =>
    match dictGet st.adapters (sourceOf cfg) with
    | none => bootstrapInstAux st rest
    | some a =>
      match getInstrumentsMethod a with
      | none => .error .attributeError
      | some f =>
        match merge_instruments st cfg.tab_name (f cfg) with
        | .error e => .error e
        | .ok st2 => bootstrapInstAux st2 rest

/-- FeedManager bootstrap_instruments. -/
def bootstrap_instruments (m : MgrState) : Except PyErr MgrState :=
  bootstrapInstAux m m.marketConfig

/-! ## Subscription planner (FeedManager.get_subscription_map) -/

/-- Spot selection loop of the planner: walk the reference tickers, keeping
the first positive index_prices entry; the value of the last ticker (or the
initial 0) remains otherwise. -/
def pickSpot (prices : List (PyStr × ℚ)) : List PyStr → ℚ
  | [] => 0
  | [t] => (dictGet prices t).getD 0
  | t :: rest =>
    let s := (dictGet prices t).getD 0
    if 0 < s then s else pickSpot prices rest

/-- One per-date entry of the planner output: the strikes list and the
strike-to-names map (each value a dict initialised with keys C and P). -/
structure DateEntry where
  strikes : List ℚ
  kmap : List (ℚ × List (PyStr × Option PyStr))
deriving DecidableEq, Repr

/-- The fresh inner dict with keys C and P mapped to None. -/
def newCP : List (PyStr × Option PyStr) := [(S "C", none), (S "P", none)]

/-- Update of one date entry for an accepted instrument: ensure the strike
key (appending the strike to the strikes list exactly when the key is new),
then assign the name under the kind key. -/
def planEntryUpd (e : DateEntry) (k : ℚ) (kind nm : PyStr) : DateEntry :=
  let e1 := if (dictGet e.kmap k).isSome then e
            else { strikes := e.strikes ++ [k], kmap := e.kmap ++ [(k, newCP)] }
  { e1 with kmap := dictUpd e1.kmap k (fun d => dictSet d kind (some nm)) }

/-- The structure updates of one accepted instrument: ensure the date entry,
then apply planEntryUpd under its key. -/
def planAdd (stru : List (PyStr × DateEntry)) (date : PyStr) (k : ℚ)
    (kind nm : PyStr) : List (PyStr × DateEntry) :=
  let stru1 := if (dictGet stru date).isSome then stru else stru ++ [(date, ⟨[], []⟩)]
  dictUpd stru1 date (fun e => planEntryUpd e k kind nm)

/-- Loop body of the planner over the instruments of the tab: skip names
with fewer than four dash parts; float() on the third part raises ValueError
on an unparseable strike; accepted instruments (date in target_dates and
strike within the band) update the structure and extend the outgoing
subscription list. -/
def planStep (td : List PyStr) (lo hi : ℚ)
    (acc : List (PyStr × DateEntry) × List PyStr) (inst : InstRecord) :
    Except PyErr (List (PyStr × DateEntry) × List PyStr) :=
  let nm := inst.instrument_name
  let parts := splitOnCh '-' nm
  if parts.length < 4 then .ok acc
  else
    let date := parts.getD 1 []
    match pyFloat (parts.getD 2 []) with
    | none => .error .valueError
    | some k =>
      let kind := parts.getD 3 []
      if date ∈ td ∧ lo ≤ k ∧ k ≤ hi then
        .ok (planAdd acc.1 date k kind nm, acc.2 ++ [S "ticker." ++ nm ++ S ".100ms"])
      else .ok acc

/-- The planner loop over all instruments of the tab. -/
def planFold (td : List PyStr) (lo hi : ℚ) :
    List InstRecord → (List (PyStr × DateEntry) × List PyStr) →
    Except PyErr (List (PyStr × DateEntry) × List PyStr)
  | [], acc => .ok acc
  | inst :: rest, acc =>
    match planStep td lo hi acc inst with
    | .error e => .error e
    | .ok acc2 => planFold td lo hi rest acc2

/-- Stable ascending insertion into a sorted list. -/
def insertSorted (x : ℚ) : List ℚ → List ℚ
  | [] => [x]
  | y :: rest => if x ≤ y then x :: y :: rest else y :: insertSorted x rest

/-- list.sort() ascending on the strikes. -/
def sortStrikesList (l : List ℚ) : List ℚ := l.foldr insertSorted []

/-- The in-place sort of every strikes list after the loop. -/
def sortStrikes (stru : List (PyStr × DateEntry)) : List (PyStr × DateEntry) :=
  stru.map (fun p => (p.1, { p.2 with strikes := sortStrikesList p.2.strikes }))

/-- Dispatch of adapter.subscribe, returning the new adapter state and the
requests sent on the transport. -/
def Adapter.doSubscribe : Adapter → List PyStr → Adapter × List SentMsg
  | .deribit st, subs => (.deribit st, deribit_subscribe st subs)
  | .bloomberg st, subs =>
    let r := bloomberg_subscribe st subs
    (.bloomberg r.1, r.2)

/-- The spot price the planner selects for a tab (0 when the tab or its
adapter is missing). -/
def plannerSpot (m : MgrState) (tab : PyStr) : ℚ :=
  match m.marketConfig.find? (fun c => decide (c.tab_name = tab)) with
  | none => 0
  | some cfg =>
    match dictGet m.adapters (sourceOf cfg) with
    | none => 0
    | some a => pickSpot m.indexPrices (a.refTickers cfg)

/-- FeedManager.get_subscription_map.  Returns the manager state after the
call (the adapter entry is updated when a Bloomberg subscribe extended its
dedup set), the strike-by-expiry structure, and the requests sent on the
transport. -/
def get_subscription_map (m : MgrState) (tab : PyStr) (td : List PyStr)
    (minPct maxPct : ℚ) :
    Except PyErr (MgrState × List (PyStr × DateEntry) × List SentMsg) :=
  match m.marketConfig.find? (fun c => decide (c.tab_name = tab)) with
  | none => .ok (m, [], [])
  | some cfg =>
    match dictGet m.adapters (sourceOf cfg) with
    | none => .ok (m, [], [])
    | some adapter =>
      let refs := adapter.refTickers cfg
      let spot := pickSpot m.indexPrices refs
      if spot = 0 then .ok (m, [], [])
      else
        let lo := spot * (1 + minPct / 100)
        let hi := spot * (1 + maxPct / 100)
        let subs0 := refs.map (fun t => S "ticker." ++ t ++ S ".100ms")
        match planFold td lo hi ((dictGet m.instrumentsByTab tab).getD []) ([], subs0) with
        | .error e => .error e
        | .ok acc =>
          let stru := sortStrikes acc.1
          if adapter.connected then
            let r := adapter.doSubscribe acc.2
            .ok ({ m with adapters := dictSet m.adapters (sourceOf cfg) r.1 }, stru, r.2)
          else .ok (m, stru, [])

/-! ## Reference-level model of get_snapshot

The claim about copy depth needs the object graph: ticker dicts, instrument
records and the config list live in an explicit heap and the manager holds
addresses.  get_snapshot builds fresh top-level containers (dict.copy and
the slice v[:]) holding the same addresses, and passes the config list
without any copy. -/

/-- Heap of the mutable objects reachable from both the manager and a
snapshot. -/
structure PyHeap where
  tickerObjs : List (Nat × TickerD)
  instObjs : List (Nat × InstRecord)
  configObjs : List (Nat × List TabConfig)
deriving DecidableEq, Repr

/-- Manager state at reference level: maps hold addresses of ticker dicts
and instrument records; market_config is the address of the config list. -/
structure MgrRefState where
  tickers : List (PyStr × Nat)
  indexPrices : List (PyStr × ℚ)
  instrumentsByTab : List (PyStr × List Nat)
  configAddr : Nat
deriving DecidableEq, Repr

/-- A returned MarketSnapshot at reference level. -/
structure SnapRef where
  is_ready : Bool
  index_prices : List (PyStr × ℚ)
  tickers : List (PyStr × Nat)
  configAddr : Nat
  instruments_by_tab : List (PyStr × List Nat)
deriving DecidableEq, Repr

/-- FeedManager.get_snapshot at reference level: index_prices.copy() copies
float values; tickers.copy() copies the map but keeps the ticker-dict
addresses; config is the very same list object; the per-tab slices v[:] are
fresh lists of the same record addresses.  is_ready samples the adapters
outside this state. -/
def get_snapshot_ref (m : MgrRefState) (isReady : Bool) : SnapRef :=
  { is_ready := isReady,
    index_prices := m.indexPrices,
    tickers := m.tickers,
    configAddr := m.configAddr,
    instruments_by_tab := m.instrumentsByTab }

/-- In-place mutation of a ticker dict. -/
def setTickerObj (h : PyHeap) (a : Nat) (t : TickerD) : PyHeap :=
  { h with tickerObjs := dictSet h.tickerObjs a t }

/-- In-place mutation of an instrument record. -/
def setInstObj (h : PyHeap) (a : Nat) (r : InstRecord) : PyHeap :=
  { h with instObjs := dictSet h.instObjs a r }

/-- In-place mutation of the config list (for example an append). -/
def setConfigObj (h : PyHeap) (a : Nat) (l : List TabConfig) : PyHeap :=
  { h with configObjs := dictSet h.configObjs a l }

/-- The ticker dict the manager sees under a name. -/
def mgrTickerAt (h : PyHeap) (m : MgrRefState) (k : PyStr) : Option (Option TickerD) :=
  (dictGet m.tickers k).map (fun a => dictGet h.tickerObjs a)

/-- The config list the manager sees. -/
def mgrConfigList (h : PyHeap) (m : MgrRefState) : Option (List TabConfig) :=
  dictGet h.configObjs m.configAddr

/-- The instrument records the manager sees for a tab. -/
def mgrInstAt (h : PyHeap) (m : MgrRefState) (tab : PyStr) :
    Option (List (Option InstRecord)) :=
  (dictGet m.instrumentsByTab tab).map (List.map (fun a => dictGet h.instObjs a))

/-! ## Definitions supporting the claim statements -/

/-- A name is a reference ticker of some configured tab (the second arm of
the heuristic as claim C7 words it; the code of ingest_ticker has no such
arm, which the counterexample below exploits). -/
def isRefOfSomeTab (m : MgrState) (nm : PyStr) : Bool :=
  m.marketConfig.any (fun cfg =>
    match dictGet m.adapters (sourceOf cfg) with
    | some a => (a.refTickers cfg).any (fun t => decide (t = nm))
    | none => false)

/-- The reference heuristic exactly as claim C7 states it: the name contains
PERPETUAL or USDC, or is otherwise a reference ticker of some tab. -/
def claimC7Heuristic (m : MgrState) (nm : PyStr) : Bool :=
  containsSeq nm (S "PERPETUAL") || containsSeq nm (S "USDC") || isRefOfSomeTab m nm

/-- The bound invariant claim C4 asserts of the planner structure: every
date key is a target date and every strike (in the strikes lists and as a
map key) lies in the moneyness band. -/
def PlanInv (td : List PyStr) (lo hi : ℚ) (stru : List (PyStr × DateEntry)) : Prop :=
  ∀ p ∈ stru, p.1 ∈ td ∧ (∀ k ∈ p.2.strikes, lo ≤ k ∧ k ≤ hi) ∧
    (∀ q ∈ p.2.kmap, lo ≤ q.1 ∧ q.1 ≤ hi)

/-- A session-long sequence of BloombergAdapter.subscribe calls, returning
the final adapter state and everything sent on the transport. -/
def runBbgSubs (a : BbgState) : List (List PyStr) → BbgState × List SentMsg
  | [] => (a, [])
  | call :: rest =>
    let r := bloomberg_subscribe a call
    let r2 := runBbgSubs r.1 rest
    (r2.1, r.2 ++ r2.2)

/-- The vendor-native names contained in a list of sent requests. -/
def sentBbgNames (msgs : List SentMsg) : List PyStr :=
  List.flatten (msgs.map (fun m => match m with
    | SentMsg.bbgSub subs => subs.map Prod.fst
    | _ => []))

/-- A session-long sequence of DeribitAdapter.subscribe calls (the adapter
state carries no subscription memory, so the state does not change). -/
def runDeribitSubs (a : DeribitState) (calls : List (List PyStr)) : List SentMsg :=
  List.flatten (calls.map (deribit_subscribe a))

/-- The channel strings contained in a list of sent requests. -/
def sentDeribitChannels (msgs : List SentMsg) : List PyStr :=
  List.flatten (msgs.map (fun m => match m with
    | SentMsg.deribitSub cs => cs
    | _ => []))

/-- The canonical-to-vendor-to-canonical round trip of the Bloomberg symbol
translator, returning the instrument_name of the reparsed record (claim
C2). -/
def roundTripName (nm : PyStr) : Except PyErr (Option PyStr) :=
  match to_bbg_option_ticker nm with
  | none => .ok none
  | some v =>
    match parse_bbg_to_app v with
    | .error e => .error e
    | .ok r => .ok (r.map (fun rec => rec.instrument_name))

/-- The canonical option name built from its components. -/
def canonName (sym : PyStr) (day mon y2 : Nat) (strike : PyStr) (kind : Char) : PyStr :=
  sym ++ '-' :: (pad2 day ++ monthU mon ++ pad2 y2) ++ '-' :: strike ++ ['-', kind]

/-! ## Concrete states used by the claim theorems -/

def cfgBtcUsd : TabConfig :=
  { tab_name := S "BTC-USD", base_symbol := S "BTC", settlement := S "usd",
    source := some (S "deribit") }

def cfgSpyUs : TabConfig :=
  { tab_name := S "US", base_symbol := S "SPY", settlement := S "usd",
    source := some (S "bloomberg") }

def deribitLive : DeribitState :=
  { exactMap := [], reverseMap := [], connected := true, wsConnected := true }

def deribitIdle : DeribitState :=
  { exactMap := [], reverseMap := [], connected := false, wsConnected := false }

def bbgLive : BbgState :=
  { hasBlpapi := true, hasSession := true, connected := true, exactMap := [],
    indexTickers := [], futurePrefixes := [], activeSubscriptions := [] }

/-- An instrument record carrying only a name, as enough of a Deribit chain
record for the planner. -/
def optRec (nm : PyStr) : InstRecord :=
  { instrument_name := nm, expiration_timestamp := none, base_currency := none,
    quote_currency := none }

/-- A manager with one Deribit tab and a registered live Deribit adapter. -/
def mgrDeribit : MgrState :=
  { tickers := [], indexPrices := [], instrumentsByTab := [(S "BTC-USD", [])],
    instrumentSets := [(S "BTC-USD", [])], marketConfig := [cfgBtcUsd],
    adapters := [(S "deribit", Adapter.deribit deribitLive)] }

/-- The same manager with a bootstrapped reference price, used for the
planner-to-transport claim. -/
def mgrC5 : MgrState := { mgrDeribit with indexPrices := [(S "BTC_USDC", 50000)] }

/-- A manager with five instruments around a 50000 spot (the moneyness
scenario of the specification), adapter disconnected so that the planner
skips the subscribe call. -/
def mgrC4 : MgrState :=
  { tickers := [], indexPrices := [(S "BTC_USDC", 50000)],
    instrumentsByTab := [(S "BTC-USD",
      [optRec (S "BTC-20DEC24-45000-C"), optRec (S "BTC-20DEC24-48000-C"),
       optRec (S "BTC-20DEC24-50000-C"), optRec (S "BTC-20DEC24-52000-C"),
       optRec (S "BTC-20DEC24-60000-C")])],
    instrumentSets := [(S "BTC-USD", [])], marketConfig := [cfgBtcUsd],
    adapters := [(S "deribit", Adapter.deribit deribitIdle)] }

/-- A manager with one Bloomberg tab whose reference ticker is the plain
symbol SPY. -/
def mgrBbg : MgrState :=
  { tickers := [], indexPrices := [], instrumentsByTab := [(S "US", [])],
    instrumentSets := [(S "US", [])], marketConfig := [cfgSpyUs],
    adapters := [(S "bloomberg", Adapter.bloomberg bbgLive)] }

/-- A raw ticker for the reference name SPY with a positive index price. -/
def rawSpy : RawTicker :=
  { instrument_name := some (S "SPY"), best_bid_price := none, best_bid_amount := none,
    best_ask_price := none, best_ask_amount := none, last_price := none, stats := none,
    timestamp := none, index_price := some 100 }

/-- A raw ticker for a perpetual with a positive index price. -/
def rawPerp : RawTicker :=
  { instrument_name := some (S "BTC_USDC-PERPETUAL"), best_bid_price := none,
    best_bid_amount := none, best_ask_price := none, best_ask_amount := none,
    last_price := none, stats := none, timestamp := none, index_price := some 49876 }

/-- A raw ticker dict without the instrument_name key. -/
def rawNoName : RawTicker :=
  { instrument_name := none, best_bid_price := none, best_bid_amount := none,
    best_ask_price := none, best_ask_amount := none, last_price := some 5, stats := none,
    timestamp := none, index_price := none }

/-- The record parse_bbg_to_app produces for the chain entry SPY US
Equity. -/
def specUnderlyingRec : InstRecord :=
  { instrument_name := S "SPY", expiration_timestamp := none,
    base_currency := some (S "SPY"), quote_currency := some (S "USD") }

def tick0 : TickerD :=
  { instrument_name := S "X", best_bid_price := none, best_bid_amount := none,
    best_ask_price := none, best_ask_amount := none, last_price := some 1, stats := [],
    ts := none }

def tick1 : TickerD := { tick0 with last_price := some 42 }

def inst0 : InstRecord := optRec (S "BTC-20DEC24-48000-C")

def inst1 : InstRecord := { inst0 with expiration_timestamp := some 1 }

/-- A heap with one ticker dict at address 0, one instrument record at
address 1 and the config list at address 2. -/
def heap0 : PyHeap :=
  { tickerObjs := [(0, tick0)], instObjs := [(1, inst0)], configObjs := [(2, [cfgBtcUsd])] }

/-- The reference-level manager pointing at heap0. -/
def mgrRef0 : MgrRefState :=
  { tickers := [(S "X", 0)], indexPrices := [(S "X", 5)],
    instrumentsByTab := [(S "BTC-USD", [1])], configAddr := 2 }

/-- The date entry the planner produces for mgrC4 (used by the planner
witness). -/
def entryW : DateEntry :=
  { strikes := [48000, 50000, 52000],
    kmap := [(48000, [(S "C", some (S "BTC-20DEC24-48000-C")), (S "P", none)]),
             (50000, [(S "C", some (S "BTC-20DEC24-50000-C")), (S "P", none)]),
             (52000, [(S "C", some (S "BTC-20DEC24-52000-C")), (S "P", none)])] }

/-- The structure the planner returns for mgrC4. -/
def stW : List (PyStr × DateEntry) := [(S "20DEC24", entryW)]

/-- Decidable equality of Except results, for evaluating the modelled
functions at concrete inputs. -/
instance {e a : Type} [DecidableEq e] [DecidableEq a] : DecidableEq (Except e a) :=
  fun x y =>
    match x, y with
    | .ok v, .ok w =>
      if h : v = w then isTrue (by rw [h]) else isFalse (fun hh => h (Except.ok.inj hh))
    | .error v, .error w =>
      if h : v = w then isTrue (by rw [h]) else isFalse (fun hh => h (Except.error.inj hh))
    | .ok _, .error _ => isFalse (fun hh => Except.noConfusion hh)
    | .error _, .ok _ => isFalse (fun hh => Except.noConfusion hh)

/-! ## General lemmas about the dict and list primitives -/

theorem dictGet_dictSet_self {κ α : Type} [DecidableEq κ] (d : List (κ × α)) (k : κ) (v : α) :
    dictGet (dictSet d k v) k = some v := by
  induction d with
  | nil => simp [dictSet, dictGet]
  | cons p rest ih =>
    simp only [dictSet]
    split
    · simp [dictGet]
    · next h => simp [dictGet, h, ih]

theorem mem_dictSet {κ α : Type} [DecidableEq κ] (d : List (κ × α)) (k : κ) (v : α) :
    ∀ q ∈ dictSet d k v, q ∈ d ∨ q = (k, v) := by
  induction d with
  | nil =>
    intro q hq
    simp only [dictSet, List.mem_singleton] at hq
    exact Or.inr hq
  | cons p rest ih =>
    intro q hq
    simp only [dictSet] at hq
    split at hq
    · rcases List.mem_cons.mp hq with h1 | h1
      · exact Or.inr h1
      · exact Or.inl (List.mem_cons_of_mem _ h1)
    · rcases List.mem_cons.mp hq with h1 | h1
      · exact Or.inl (List.mem_cons.mpr (Or.inl h1))
      · rcases ih q h1 with h2 | h2
        · exact Or.inl (List.mem_cons_of_mem _ h2)
        · exact Or.inr h2

theorem mem_dictUpd {κ α : Type} [DecidableEq κ] (d : List (κ × α)) (k : κ) (f : α → α) :
    ∀ q ∈ dictUpd d k f, ∃ p ∈ d, q.1 = p.1 ∧ (q.2 = p.2 ∨ q.2 = f p.2) := by
  intro q hq
  simp only [dictUpd, List.mem_map] at hq
  obtain ⟨p, hp, hq⟩ := hq
  refine ⟨p, hp, ?_⟩
  by_cases h : p.1 = k
  · rw [if_pos h] at hq
    exact ⟨by rw [← hq], Or.inr (by rw [← hq])⟩
  · rw [if_neg h] at hq
    exact ⟨by rw [← hq], Or.inl (by rw [← hq])⟩

theorem mem_insertSorted (x y : ℚ) (l : List ℚ) :
    x ∈ insertSorted y l ↔ x = y ∨ x ∈ l := by
  induction l with
  | nil => simp [insertSorted]
  | cons a rest ih =>
    by_cases h : y ≤ a
    · simp [insertSorted, if_pos h]
    · simp only [insertSorted, if_neg h, List.mem_cons, ih]
      tauto

theorem mem_sortStrikesList (x : ℚ) (l : List ℚ) :
    x ∈ sortStrikesList l ↔ x ∈ l := by
  induction l with
  | nil => simp [sortStrikesList]
  | cons a rest ih =>
    simp only [sortStrikesList, List.foldr_cons]
    rw [mem_insertSorted]
    simp only [sortStrikesList] at ih
    rw [ih, List.mem_cons]

theorem takeW_app (p : Char → Bool) (xs ys : PyStr) (y : Char)
    (hxs : ∀ c ∈ xs, p c = true) (hy : p y = false) :
    takeW p (xs ++ y :: ys) = xs := by
  induction xs with
  | nil => simp [takeW, hy]
  | cons c rest ih =>
    have hc : p c = true := hxs c (by simp)
    have ih2 := ih (fun d hd => hxs d (by simp [hd]))
    simp only [List.cons_append, takeW, hc, if_true]
    exact congrArg (List.cons c) ih2

theorem dropW_app (p : Char → Bool) (xs ys : PyStr) (y : Char)
    (hxs : ∀ c ∈ xs, p c = true) (hy : p y = false) :
    dropW p (xs ++ y :: ys) = y :: ys := by
  induction xs with
  | nil => simp [dropW, hy]
  | cons c rest ih =>
    have hc : p c = true := hxs c (by simp)
    have ih2 := ih (fun d hd => hxs d (by simp [hd]))
    simp only [List.cons_append, dropW, hc, if_true]
    exact ih2

theorem takeW_all (p : Char → Bool) (xs : PyStr) (hxs : ∀ c ∈ xs, p c = true) :
    takeW p xs = xs := by
  induction xs with
  | nil => rfl
  | cons c rest ih =>
    have hc : p c = true := hxs c (by simp)
    have ih2 := ih (fun d hd => hxs d (by simp [hd]))
    simp only [takeW, hc, if_true]
    exact congrArg (List.cons c) ih2

theorem dropW_all (p : Char → Bool) (xs : PyStr) (hxs : ∀ c ∈ xs, p c = true) :
    dropW p xs = [] := by
  induction xs with
  | nil => rfl
  | cons c rest ih =>
    have hc : p c = true := hxs c (by simp)
    have ih2 := ih (fun d hd => hxs d (by simp [hd]))
    simp only [dropW, hc, if_true]
    exact ih2

theorem splitOnCh_ne_nil (sep : Char) (s : PyStr) : splitOnCh sep s ≠ [] := by
  cases s with
  | nil => simp [splitOnCh]
  | cons c rest =>
    simp only [splitOnCh]
    cases h : splitOnCh sep rest with
    | nil => simp
    | cons g gs => by_cases hc : c = sep <;> simp [hc]

theorem splitOnCh_no_sep (sep : Char) (xs : PyStr) (h : ∀ c ∈ xs, c ≠ sep) :
    splitOnCh sep xs = [xs] := by
  induction xs with
  | nil => rfl
  | cons c rest ih =>
    have hc : c ≠ sep := h c (by simp)
    have ih2 := ih (fun d hd => h d (by simp [hd]))
    simp only [splitOnCh, ih2]
    simp [hc]

theorem splitOnCh_append (sep : Char) (xs ys : PyStr) (h : ∀ c ∈ xs, c ≠ sep) :
    splitOnCh sep (xs ++ sep :: ys) = xs :: splitOnCh sep ys := by
  induction xs with
  | nil =>
    simp only [List.nil_append, splitOnCh]
    cases hs : splitOnCh sep ys with
    | nil => exact absurd hs (splitOnCh_ne_nil sep ys)
    | cons g gs => simp [hs]
  | cons c rest ih =>
    have hc : c ≠ sep := h c (by simp)
    have ih2 := ih (fun d hd => h d (by simp [hd]))
    simp only [List.cons_append, splitOnCh, List.append_eq]
    rw [ih2]
    simp [hc]

/-! ## Preservation lemmas for the index-price invariant -/

theorem dictSet_pos {d : List (PyStr × ℚ)} {k : PyStr} {v : ℚ}
    (hd : ∀ p ∈ d, 0 < p.2) (hv : 0 < v) : ∀ p ∈ dictSet d k v, 0 < p.2 := by
  intro p hp
  rcases mem_dictSet d k v p hp with h | h
  · exact hd p h
  · rw [h]; exact hv

theorem foldl_preserve {β σ : Type} (P : σ → Prop) (f : σ → β → σ)
    (hf : ∀ s b, P s → P (f s b)) : ∀ (l : List β) (s : σ), P s → P (l.foldl f s) := by
  intro l
  induction l with
  | nil => intro s hs; exact hs
  | cons b rest ih => intro s hs; exact ih (f s b) (hf s b hs)

theorem ingest_indexPrices_cases (m : MgrState) (raw : RawTicker) :
    (ingest_ticker m raw).state.indexPrices = m.indexPrices ∨
    ∃ nm, 0 < chosenPx raw ∧
      (ingest_ticker m raw).state.indexPrices = dictSet m.indexPrices nm (chosenPx raw) := by
  cases hn : raw.instrument_name with
  | none => left; simp [ingest_ticker, hn]
  | some nm =>
    by_cases hh : (containsSeq nm (S "PERPETUAL") || containsSeq nm (S "USDC")) = true
    · by_cases hpx : 0 < chosenPx raw
      · right; exact ⟨nm, hpx, by simp [ingest_ticker, hn, hh, hpx]⟩
      · left; simp [ingest_ticker, hn, hh, hpx]
    · left; simp [ingest_ticker, hn, hh]

theorem bootPriceTick_pos (latest : Adapter → PyStr → ℚ) (a : Adapter)
    (st : MgrState) (t : PyStr) (h : ∀ p ∈ st.indexPrices, 0 < p.2) :
    ∀ p ∈ (bootPriceTick latest a st t).indexPrices, 0 < p.2 := by
  intro p hp
  simp only [bootPriceTick] at hp
  split at hp
  · next hpx => exact dictSet_pos h hpx p hp
  · exact h p hp

theorem bootPriceCfg_pos (latest : Adapter → PyStr → ℚ)
    (adapters : List (PyStr × Adapter)) (st : MgrState) (cfg : TabConfig)
    (h : ∀ p ∈ st.indexPrices, 0 < p.2) :
    ∀ p ∈ (bootPriceCfg latest adapters st cfg).indexPrices, 0 < p.2 := by
  unfold bootPriceCfg
  split
  · exact h
  · next a _ =>
    exact foldl_preserve (fun s => ∀ p ∈ s.indexPrices, 0 < p.2)
      (bootPriceTick latest a) (fun s b hs => bootPriceTick_pos latest a s b hs) _ st h

/-! ## Claim theorems -/

/-- C9: a raw ticker dict without the instrument_name key makes
ingest_ticker raise KeyError at its first statement, before the lock is
acquired (the event trace is empty), and the manager state, in particular
the tickers and index_prices maps, is unchanged by the call. -/
theorem c9_missing_key (m : MgrState) (raw : RawTicker)
    (h : raw.instrument_name = none) :
    ingest_ticker m raw = { state := m, err := some PyErr.keyError, evts := [] } := by
  simp [ingest_ticker, h]

/-- Witness for C9 at a concrete state and raw dict. -/
theorem c9_missing_key_witness :
    ingest_ticker mgrDeribit rawNoName
      = { state := mgrDeribit, err := some PyErr.keyError, evts := [] } :=
  c9_missing_key mgrDeribit rawNoName rfl

/-- C8: every operation that writes index_prices guards on a strictly
positive price, so the invariant that every stored value is positive is
preserved by ingest_ticker and by the bootstrap price pass (whatever float
the adapter fetch returns), and a zero or failed (0.0) price is never
stored. -/
theorem c8_index_prices_positive (m : MgrState) (raw : RawTicker)
    (latest : Adapter → PyStr → ℚ)
    (hm : ∀ p ∈ m.indexPrices, 0 < p.2) :
    (∀ p ∈ (ingest_ticker m raw).state.indexPrices, 0 < p.2) ∧
    (∀ p ∈ (bootstrap_prices latest m).indexPrices, 0 < p.2) := by
  constructor
  · rcases ingest_indexPrices_cases m raw with h | ⟨nm, hpx, h⟩
    · rw [h]; exact hm
    · rw [h]; exact dictSet_pos hm hpx
  · unfold bootstrap_prices
    exact foldl_preserve (fun s => ∀ p ∈ s.indexPrices, 0 < p.2)
      (bootPriceCfg latest m.adapters)
      (fun s b hs => bootPriceCfg_pos latest m.adapters s b hs) _ m hm

/-- Witness for C8: a concrete state with a positive entry, a concrete raw
ticker and a concrete price oracle. -/
theorem c8_index_prices_positive_witness :
    (∀ p ∈ (ingest_ticker mgrC5 rawPerp).state.indexPrices, 0 < p.2) ∧
    (∀ p ∈ (bootstrap_prices (fun _ _ => 7) mgrC5).indexPrices, 0 < p.2) :=
  c8_index_prices_positive mgrC5 rawPerp (fun _ _ => 7) (by decide)

/-- C7 counterexample: SPY is a reference ticker of the Bloomberg tab, so
the heuristic as the claim words it applies, and the delivered index_price
100 is positive, yet ingest_ticker stores nothing in index_prices (the code
tests only the PERPETUAL and USDC substrings). -/
theorem c7_counterexample :
    claimC7Heuristic mgrBbg (S "SPY") = true ∧
    chosenPx rawSpy = 100 ∧
    (ingest_ticker mgrBbg rawSpy).err = none ∧
    dictGet (ingest_ticker mgrBbg rawSpy).state.indexPrices (S "SPY") = none ∧
    dictGet (get_snapshot (ingest_ticker mgrBbg rawSpy).state).index_prices (S "SPY")
      = none := by
  decide

/-- C7 as amended: only for names containing PERPETUAL or USDC does
ingest_ticker update index_prices, storing the first truthy of index_price
and last_price exactly when that value is positive; the update is visible in
a subsequent snapshot, and a non-positive value leaves index_prices
unchanged. -/
theorem c7_ingest_amended (m : MgrState) (raw : RawTicker) (nm : PyStr)
    (hn : raw.instrument_name = some nm)
    (hh : (containsSeq nm (S "PERPETUAL") || containsSeq nm (S "USDC")) = true) :
    (0 < chosenPx raw →
       dictGet (ingest_ticker m raw).state.indexPrices nm = some (chosenPx raw) ∧
       dictGet (get_snapshot (ingest_ticker m raw).state).index_prices nm
         = some (chosenPx raw)) ∧
    (¬ 0 < chosenPx raw → (ingest_ticker m raw).state.indexPrices = m.indexPrices) := by
  constructor
  · intro hpx
    have hst : (ingest_ticker m raw).state.indexPrices
        = dictSet m.indexPrices nm (chosenPx raw) := by
      simp [ingest_ticker, hn, hh, hpx]
    refine ⟨?_, ?_⟩
    · rw [hst]; exact dictGet_dictSet_self _ _ _
    · simp only [get_snapshot]; rw [hst]; exact dictGet_dictSet_self _ _ _
  · intro hpx
    simp [ingest_ticker, hn, hh, hpx]

/-- Witness for C7 as amended, at a perpetual name with index price
49876. -/
theorem c7_ingest_witness :
    dictGet (ingest_ticker mgrDeribit rawPerp).state.indexPrices
        (S "BTC_USDC-PERPETUAL") = some 49876 ∧
    dictGet (get_snapshot (ingest_ticker mgrDeribit rawPerp).state).index_prices
        (S "BTC_USDC-PERPETUAL") = some 49876 := by
  have h := (c7_ingest_amended mgrDeribit rawPerp (S "BTC_USDC-PERPETUAL") rfl
    (by decide)).1 (by decide)
  have hcp : chosenPx rawPerp = 49876 := rfl
  rw [hcp] at h
  exact h

/-- C1: the tab source deribit has a registered adapter, yet bootstrap never
reaches the option-chain operation: manager.py line 173 calls
adapter.get_instruments(cfg), an attribute no adapter class defines (the
contract operation is get_option_chain), so the bootstrap raises
AttributeError and nothing is merged into instruments_by_tab. -/
theorem c1_bootstrap_attribute_error :
    dictGet mgrDeribit.adapters (sourceOf cfgBtcUsd)
      = some (Adapter.deribit deribitLive) ∧
    bootstrap_instruments mgrDeribit = Except.error PyErr.attributeError :=
  ⟨rfl, rfl⟩

/-- C10: the chain entry SPY US Equity fails the option regex, matches the
underlying regex, and yields a record with the bare symbol as
instrument_name and no expiration_timestamp; get_option_chain returns that
record — but bootstrap appends nothing, because bootstrap_instruments fails
with AttributeError on the undefined get_instruments before it can call
get_option_chain. -/
theorem c10_underlying_record :
    parse_bbg_to_app (S "SPY US Equity") = Except.ok (some specUnderlyingRec) ∧
    specUnderlyingRec.expiration_timestamp = none ∧
    bloomberg_get_option_chain bbgLive [S "SPY US Equity"]
      = Except.ok [specUnderlyingRec] ∧
    bootstrap_instruments mgrBbg = Except.error PyErr.attributeError :=
  ⟨rfl, rfl, rfl, rfl⟩

/-- C5: the planner already formats each reference ticker as
ticker.NAME.100ms, and DeribitAdapter.subscribe wraps every received string
again, so the channel that reaches the transport is
ticker.ticker.NAME.100ms.100ms — not the claimed single-prefix form
ticker.NAME.100ms. -/
theorem c5_double_wrap :
    get_subscription_map mgrC5 (S "BTC-USD") [] 0 0
      = Except.ok (mgrC5, [],
          [SentMsg.deribitSub
             [S "ticker.ticker.BTC_USDC.100ms.100ms",
              S "ticker.ticker.BTC_USDC-PERPETUAL.100ms.100ms"]]) ∧
    S "ticker.ticker.BTC_USDC.100ms.100ms"
      ≠ S "ticker." ++ S "BTC_USDC" ++ S ".100ms" :=
  ⟨rfl, by decide⟩

/-- C3 counterexample: the returned snapshot holds the very addresses of the
ticker dict object, the instrument record and the config list; mutating any
one of the three through the snapshot changes what the manager sees, so
get_snapshot is not a deep copy. -/
theorem c3_counterexample :
    dictGet (get_snapshot_ref mgrRef0 true).tickers (S "X") = some 0 ∧
    dictGet (get_snapshot_ref mgrRef0 true).instruments_by_tab (S "BTC-USD")
      = some [1] ∧
    (get_snapshot_ref mgrRef0 true).configAddr = 2 ∧
    mgrTickerAt (setTickerObj heap0 0 tick1) mgrRef0 (S "X")
      ≠ mgrTickerAt heap0 mgrRef0 (S "X") ∧
    mgrInstAt (setInstObj heap0 1 inst1) mgrRef0 (S "BTC-USD")
      ≠ mgrInstAt heap0 mgrRef0 (S "BTC-USD") ∧
    mgrConfigList (setConfigObj heap0 2 [cfgBtcUsd, cfgSpyUs]) mgrRef0
      ≠ mgrConfigList heap0 mgrRef0 := by
  decide

/-- C3 as amended: get_snapshot copies only the top level.  The returned
index_prices holds copied float values, while the tickers map, the per-tab
lists and the config reference carry exactly the addresses the manager
holds; consequently an in-place mutation of a ticker dict reachable from the
snapshot, or of the config list, is visible in the manager state. -/
theorem c3_snapshot_amended (m : MgrRefState) (h : PyHeap) (b : Bool) (k : PyStr)
    (a : Nat) (t : TickerD) (l : List TabConfig)
    (hk : dictGet (get_snapshot_ref m b).tickers k = some a) :
    (get_snapshot_ref m b).index_prices = m.indexPrices ∧
    (get_snapshot_ref m b).tickers = m.tickers ∧
    (get_snapshot_ref m b).configAddr = m.configAddr ∧
    (get_snapshot_ref m b).instruments_by_tab = m.instrumentsByTab ∧
    mgrTickerAt (setTickerObj h a t) m k = some (some t) ∧
    mgrConfigList (setConfigObj h (get_snapshot_ref m b).configAddr l) m = some l := by
  refine ⟨rfl, rfl, rfl, rfl, ?_, ?_⟩
  · have hk2 : dictGet m.tickers k = some a := hk
    simp only [mgrTickerAt, setTickerObj, hk2]
    simp [dictGet_dictSet_self]
  · simp only [mgrConfigList, setConfigObj, get_snapshot_ref]
    exact dictGet_dictSet_self _ _ _

/-- Witness for C3 as amended at the concrete heap and manager. -/
theorem c3_snapshot_witness :
    mgrTickerAt (setTickerObj heap0 0 tick1) mgrRef0 (S "X") = some (some tick1) ∧
    mgrConfigList (setConfigObj heap0 (get_snapshot_ref mgrRef0 true).configAddr
        [cfgSpyUs]) mgrRef0 = some [cfgSpyUs] := by
  have h := c3_snapshot_amended mgrRef0 heap0 true (S "X") 0 tick1 [cfgSpyUs] (by decide)
  exact ⟨h.2.2.2.2.1, h.2.2.2.2.2⟩

/-- One subscription-loop step preserves the session invariant: the dedup
set equals the initial set plus everything sent, the sent names are
duplicate-free, and none of them was in the initial set. -/
theorem bbgSubStep_spec (a : BbgState) (acc : BbgState × List (PyStr × PyStr))
    (app : PyStr)
    (h1 : acc.1.activeSubscriptions = a.activeSubscriptions ++ acc.2.map Prod.fst)
    (h2 : (acc.2.map Prod.fst).Nodup)
    (h3 : ∀ x ∈ acc.2.map Prod.fst, x ∉ a.activeSubscriptions) :
    (bbgSubStep a acc app).1.activeSubscriptions
      = a.activeSubscriptions ++ (bbgSubStep a acc app).2.map Prod.fst ∧
    ((bbgSubStep a acc app).2.map Prod.fst).Nodup ∧
    (∀ x ∈ (bbgSubStep a acc app).2.map Prod.fst, x ∉ a.activeSubscriptions) := by
  cases hcv : convert_to_bbg a app with
  | none => simp only [bbgSubStep, hcv]; exact ⟨h1, h2, h3⟩
  | some bbg =>
    by_cases hmem : bbg ∈ acc.1.activeSubscriptions
    · simp only [bbgSubStep, hcv, if_pos hmem]
      exact ⟨h1, h2, h3⟩
    · have hnotsent : bbg ∉ acc.2.map Prod.fst := by
        intro hx
        exact hmem (h1 ▸ List.mem_append.mpr (Or.inr hx))
      have hnotinit : bbg ∉ a.activeSubscriptions := by
        intro hx
        exact hmem (h1 ▸ List.mem_append.mpr (Or.inl hx))
      simp only [bbgSubStep, hcv, if_neg hmem]
      refine ⟨?_, ?_, ?_⟩
      · simp [h1, List.map_append, List.append_assoc]
      · simp only [List.map_append, List.map_cons, List.map_nil]
        simp [List.nodup_append, h2, hnotsent]
      · intro x hx
        simp only [List.map_append, List.map_cons, List.map_nil,
          List.mem_append, List.mem_singleton] at hx
        rcases hx with hx | hx
        · exact h3 x hx
        · rw [hx]; exact hnotinit

/-- The whole subscription loop preserves the session invariant. -/
theorem bbgFold_spec (a : BbgState) (instruments : List PyStr) :
    ∀ acc : BbgState × List (PyStr × PyStr),
      acc.1.activeSubscriptions = a.activeSubscriptions ++ acc.2.map Prod.fst →
      (acc.2.map Prod.fst).Nodup →
      (∀ x ∈ acc.2.map Prod.fst, x ∉ a.activeSubscriptions) →
      (instruments.foldl (bbgSubStep a) acc).1.activeSubscriptions
        = a.activeSubscriptions
          ++ (instruments.foldl (bbgSubStep a) acc).2.map Prod.fst ∧
      ((instruments.foldl (bbgSubStep a) acc).2.map Prod.fst).Nodup ∧
      (∀ x ∈ (instruments.foldl (bbgSubStep a) acc).2.map Prod.fst,
        x ∉ a.activeSubscriptions) := by
  induction instruments with
  | nil => intro acc h1 h2 h3; exact ⟨h1, h2, h3⟩
  | cons app rest ih =>
    intro acc h1 h2 h3
    obtain ⟨g1, g2, g3⟩ := bbgSubStep_spec a acc app h1 h2 h3
    exact ih (bbgSubStep a acc app) g1 g2 g3

/-- One BloombergAdapter.subscribe call: the dedup set grows by exactly the
sent vendor names, which are duplicate-free and disjoint from the set as it
stood before the call. -/
theorem bloomberg_subscribe_spec (a : BbgState) (call : List PyStr) :
    (bloomberg_subscribe a call).1.activeSubscriptions
      = a.activeSubscriptions ++ sentBbgNames (bloomberg_subscribe a call).2 ∧
    (sentBbgNames (bloomberg_subscribe a call).2).Nodup ∧
    ∀ x ∈ sentBbgNames (bloomberg_subscribe a call).2,
      x ∉ a.activeSubscriptions := by
  by_cases hs : (!a.hasSession || !a.hasBlpapi) = true
  · simp [bloomberg_subscribe, hs, sentBbgNames]
  · obtain ⟨h1, h2, h3⟩ := bbgFold_spec a call (a, []) (by simp) (by simp) (by simp)
    by_cases hl : 0 < (call.foldl (bbgSubStep a) (a, [])).2.length
    · have heq : bloomberg_subscribe a call
          = ((call.foldl (bbgSubStep a) (a, [])).1,
             [SentMsg.bbgSub (call.foldl (bbgSubStep a) (a, [])).2]) := by
        simp [bloomberg_subscribe, hs, hl]
      rw [heq]
      simp only [sentBbgNames, List.map_cons, List.map_nil, List.flatten_cons,
        List.flatten_nil, List.append_nil]
      exact ⟨h1, h2, h3⟩
    · have hnil : (call.foldl (bbgSubStep a) (a, [])).2 = [] :=
        List.length_eq_zero.mp (by omega)
      have heq : bloomberg_subscribe a call
          = ((call.foldl (bbgSubStep a) (a, [])).1, []) := by
        simp [bloomberg_subscribe, hs, hl]
      rw [heq]
      simp only [sentBbgNames, List.map_nil, List.flatten_nil]
      refine ⟨?_, by simp, by simp⟩
      rw [h1, hnil]
      simp

/-- C6 as amended: within one session the Bloomberg adapter forwards each
vendor-native channel at most once, skipping names already in
active_subscriptions: across any sequence of subscribe calls the multiset of
sent vendor names is duplicate-free, disjoint from the initial set, and the
set ends holding the initial names plus everything sent.  (The Deribit
adapter has no such set; see the counterexample.) -/
theorem c6_bbg_dedup (a : BbgState) (calls : List (List PyStr)) :
    (sentBbgNames (runBbgSubs a calls).2).Nodup ∧
    (runBbgSubs a calls).1.activeSubscriptions
      = a.activeSubscriptions ++ sentBbgNames (runBbgSubs a calls).2 ∧
    ∀ x ∈ sentBbgNames (runBbgSubs a calls).2, x ∉ a.activeSubscriptions := by
  induction calls generalizing a with
  | nil => simp [runBbgSubs, sentBbgNames]
  | cons call rest ih =>
    obtain ⟨h1, h2, h3⟩ := bloomberg_subscribe_spec a call
    obtain ⟨i1, i2, i3⟩ := ih (bloomberg_subscribe a call).1
    have hsplit : sentBbgNames (runBbgSubs a (call :: rest)).2
        = sentBbgNames (bloomberg_subscribe a call).2
          ++ sentBbgNames (runBbgSubs (bloomberg_subscribe a call).1 rest).2 := by
      simp [runBbgSubs, sentBbgNames, List.map_append, List.flatten_append]
    have hfst : (runBbgSubs a (call :: rest)).1
        = (runBbgSubs (bloomberg_subscribe a call).1 rest).1 := by
      simp [runBbgSubs]
    have hdisj : ∀ x ∈ sentBbgNames (runBbgSubs (bloomberg_subscribe a call).1 rest).2,
        x ∉ sentBbgNames (bloomberg_subscribe a call).2 ∧
        x ∉ a.activeSubscriptions := by
      intro x hx
      have := i3 x hx
      rw [h1] at this
      constructor
      · intro hmem; exact this (List.mem_append.mpr (Or.inr hmem))
      · intro hmem; exact this (List.mem_append.mpr (Or.inl hmem))
    refine ⟨?_, ?_, ?_⟩
    · rw [hsplit]
      rw [List.nodup_append]
      exact ⟨h2, i1, fun x hx hy => (hdisj x hy).1 hx⟩
    · rw [hfst, hsplit, i2, h1, List.append_assoc]
    · intro x hx
      rw [hsplit] at hx
      rcases List.mem_append.mp hx with hx | hx
      · exact h3 x hx
      · exact (hdisj x hx).2

/-- C6 counterexample: the Deribit adapter keeps no active_subscriptions
set, so two successive subscribe calls with the same channel list (as two
overlapping planner calls produce) send the same vendor channel twice in one
session. -/
theorem c6_counterexample :
    sentDeribitChannels (runDeribitSubs deribitLive
        [[S "ticker.BTC-PERPETUAL.100ms"], [S "ticker.BTC-PERPETUAL.100ms"]])
      = [S "ticker.ticker.BTC-PERPETUAL.100ms.100ms",
         S "ticker.ticker.BTC-PERPETUAL.100ms.100ms"] ∧
    ¬ (sentDeribitChannels (runDeribitSubs deribitLive
        [[S "ticker.BTC-PERPETUAL.100ms"], [S "ticker.BTC-PERPETUAL.100ms"]])).Nodup :=
  ⟨rfl, by decide⟩

/-! ## Invariant lemmas for the subscription planner -/

theorem planEntryUpd_bounds (lo hi k : ℚ) (kind nm : PyStr) (e : DateEntry)
    (hs : ∀ x ∈ e.strikes, lo ≤ x ∧ x ≤ hi)
    (hm : ∀ r ∈ e.kmap, lo ≤ r.1 ∧ r.1 ≤ hi)
    (hlo : lo ≤ k) (hhi : k ≤ hi) :
    (∀ x ∈ (planEntryUpd e k kind nm).strikes, lo ≤ x ∧ x ≤ hi) ∧
    (∀ r ∈ (planEntryUpd e k kind nm).kmap, lo ≤ r.1 ∧ r.1 ≤ hi) := by
  unfold planEntryUpd
  by_cases hk : (dictGet e.kmap k).isSome
  · simp only [hk, if_true]
    refine ⟨hs, ?_⟩
    intro r hr
    obtain ⟨p, hp, hp1, _⟩ := mem_dictUpd _ _ _ r hr
    rw [hp1]
    exact hm p hp
  · simp only [hk, if_false]
    constructor
    · intro x hx
      rcases List.mem_append.mp hx with h1 | h1
      · exact hs x h1
      · simp only [List.mem_singleton] at h1
        rw [h1]; exact ⟨hlo, hhi⟩
    · intro r hr
      obtain ⟨p, hp, hp1, _⟩ := mem_dictUpd _ _ _ r hr
      rcases List.mem_append.mp hp with h1 | h1
      · rw [hp1]; exact hm p h1
      · simp only [List.mem_singleton] at h1
        rw [hp1, h1]; exact ⟨hlo, hhi⟩

theorem planAdd_inv (td : List PyStr) (lo hi : ℚ) (stru : List (PyStr × DateEntry))
    (date : PyStr) (k : ℚ) (kind nm : PyStr)
    (hs : PlanInv td lo hi stru) (hd : date ∈ td) (hlo : lo ≤ k) (hhi : k ≤ hi) :
    PlanInv td lo hi (planAdd stru date k kind nm) := by
  intro p hp
  unfold planAdd at hp
  have hstru1 : PlanInv td lo hi
      (if (dictGet stru date).isSome then stru else stru ++ [(date, ⟨[], []⟩)]) := by
    split
    · exact hs
    · intro q hq
      rcases List.mem_append.mp hq with h1 | h1
      · exact hs q h1
      · simp only [List.mem_singleton] at h1
        rw [h1]
        exact ⟨hd, by simp, by simp⟩
  obtain ⟨q, hq, hq1, hq2⟩ := mem_dictUpd _ _ _ p hp
  obtain ⟨hqtd, hqs, hqm⟩ := hstru1 q hq
  rcases hq2 with h | h
  · exact ⟨by rw [hq1]; exact hqtd, by rw [h]; exact hqs, by rw [h]; exact hqm⟩
  · obtain ⟨hs2, hm2⟩ := planEntryUpd_bounds lo hi k kind nm q.2 hqs hqm hlo hhi
    exact ⟨by rw [hq1]; exact hqtd, by rw [h]; exact hs2, by rw [h]; exact hm2⟩

theorem planStep_inv (td : List PyStr) (lo hi : ℚ)
    (acc acc2 : List (PyStr × DateEntry) × List PyStr) (inst : InstRecord)
    (hs : PlanInv td lo hi acc.1)
    (h : planStep td lo hi acc inst = .ok acc2) :
    PlanInv td lo hi acc2.1 := by
  simp only [planStep] at h
  split at h
  · injection h with h2
    rw [← h2]; exact hs
  · split at h
    · exact absurd h (by simp)
    · next k hk =>
      split at h
      · next hcond =>
        injection h with h2
        rw [← h2]
        exact planAdd_inv td lo hi acc.1 _ k _ _ hs hcond.1 hcond.2.1 hcond.2.2
      · injection h with h2
        rw [← h2]; exact hs

theorem planFold_inv (td : List PyStr) (lo hi : ℚ) :
    ∀ (insts : List InstRecord) (acc acc2 : List (PyStr × DateEntry) × List PyStr),
      PlanInv td lo hi acc.1 →
      planFold td lo hi insts acc = .ok acc2 →
      PlanInv td lo hi acc2.1 := by
  intro insts
  induction insts with
  | nil =>
    intro acc acc2 hs h
    unfold planFold at h
    injection h with h2
    rw [← h2]; exact hs
  | cons inst rest ih =>
    intro acc acc2 hs h
    unfold planFold at h
    split at h
    · exact absurd h (by simp)
    · next acc3 hstep =>
      exact ih acc3 acc2 (planStep_inv td lo hi acc acc3 inst hs hstep) h

theorem sortStrikes_inv (td : List PyStr) (lo hi : ℚ)
    (stru : List (PyStr × DateEntry)) (hs : PlanInv td lo hi stru) :
    PlanInv td lo hi (sortStrikes stru) := by
  intro p hp
  simp only [sortStrikes, List.mem_map] at hp
  obtain ⟨q, hq, hpq⟩ := hp
  obtain ⟨h1, h2, h3⟩ := hs q hq
  rw [← hpq]
  exact ⟨h1, fun k hk => h2 k ((mem_sortStrikesList k _).mp hk), h3⟩

/-- C4: for every planner call whose selected spot price is positive, every
date key of the returned structure is a member of target_dates, and every
strike appearing in it (in the strikes lists and as a map key) lies between
spot times (1 + min_pct / 100) and spot times (1 + max_pct / 100). -/
theorem c4_planner_bounds (m : MgrState) (tab : PyStr) (td : List PyStr)
    (minPct maxPct : ℚ) (m2 : MgrState) (st : List (PyStr × DateEntry))
    (sent : List SentMsg)
    (hspot : 0 < plannerSpot m tab)
    (h : get_subscription_map m tab td minPct maxPct = .ok (m2, st, sent)) :
    ∀ p ∈ st, p.1 ∈ td ∧
      (∀ k ∈ p.2.strikes,
        plannerSpot m tab * (1 + minPct / 100) ≤ k ∧
        k ≤ plannerSpot m tab * (1 + maxPct / 100)) ∧
      (∀ q ∈ p.2.kmap,
        plannerSpot m tab * (1 + minPct / 100) ≤ q.1 ∧
        q.1 ≤ plannerSpot m tab * (1 + maxPct / 100)) := by
  unfold get_subscription_map at h
  split at h
  · -- no TabConfig for the tab: empty structure
    injection h with h2
    have hst : st = [] := by
      have := congrArg (fun t => t.2.1) h2
      simpa using this.symm
    intro p hp
    rw [hst] at hp
    cases hp
  · next cfg hfind =>
    split at h
    · -- no registered adapter: empty structure
      injection h with h2
      have hst : st = [] := by
        have := congrArg (fun t => t.2.1) h2
        simpa using this.symm
      intro p hp
      rw [hst] at hp
      cases hp
    · next adapter hadp =>
      simp only [] at h
      have hspot2 : plannerSpot m tab
          = pickSpot m.indexPrices (adapter.refTickers cfg) := by
        simp only [plannerSpot, hfind, hadp]
      split at h
      · -- spot = 0 contradicts the positive-spot hypothesis
        next hz =>
        rw [hspot2, hz] at hspot
        exact absurd hspot (by norm_num)
      · next hz =>
        rw [hspot2]
        split at h
        · -- planFold raised: no ok result
          exact absurd h (by simp)
        · next acc hplan =>
          have hinv : PlanInv td
              (pickSpot m.indexPrices (adapter.refTickers cfg) * (1 + minPct / 100))
              (pickSpot m.indexPrices (adapter.refTickers cfg) * (1 + maxPct / 100))
              acc.1 :=
            planFold_inv _ _ _ _ _ acc (fun p hp => absurd hp (List.not_mem_nil p)) hplan
          have hsorted := sortStrikes_inv _ _ _ _ hinv
          have hst : st = sortStrikes acc.1 := by
            split at h
            · injection h with h2
              have := congrArg (fun t => t.2.1) h2
              simpa using this.symm
            · injection h with h2
              have := congrArg (fun t => t.2.1) h2
              simpa using this.symm
          rw [hst]
          exact hsorted

/-- Witness for C4 at the moneyness-window scenario: spot 50000, band -5 to
+5 percent, date 20DEC24, strike 48000 accepted. -/
theorem c4_planner_bounds_witness :
    (S "20DEC24") ∈ [S "20DEC24"] ∧
    (plannerSpot mgrC4 (S "BTC-USD") * (1 + (-5) / 100) ≤ 48000 ∧
     48000 ≤ plannerSpot mgrC4 (S "BTC-USD") * (1 + 5 / 100)) := by
  have h := c4_planner_bounds mgrC4 (S "BTC-USD") [S "20DEC24"] (-5) 5 mgrC4 stW []
    (by decide) (by decide)
  obtain ⟨h1, h2, _⟩ := h (S "20DEC24", entryW) (by decide)
  exact ⟨h1, h2 48000 (by decide)⟩

/-! ## Character and date lemmas for the translator round trip -/

theorem digitCh_facts (n : Nat) (h : n < 10) :
    isDigitCh (digitCh n) = true ∧ isWordCh (digitCh n) = true ∧
    isSpaceCh (digitCh n) = false ∧ isDigitDotCh (digitCh n) = true ∧
    digitCh n ≠ '-' ∧ digitCh n ≠ '/' ∧ digitCh n ≠ ' ' ∧
    toUpperCh (digitCh n) = digitCh n ∧ digitVal (digitCh n) = n := by
  interval_cases n <;> decide

theorem daysInMonth_le_31 (y m : Nat) : daysInMonth y m ≤ 31 := by
  unfold daysInMonth
  split
  · split <;> omega
  · split <;> omega

theorem century_mod (y2 : Nat) (h : y2 < 100) : century y2 % 100 = y2 := by
  unfold century
  split <;> omega

theorem parse_y2_pad2 (n : Nat) (h : n < 100) (rest : PyStr) :
    parse_y2 (pad2 n ++ rest) = some (n, rest) := by
  obtain ⟨hd1, -, -, -, -, -, -, -, hv1⟩ := digitCh_facts (n / 10) (by omega)
  obtain ⟨hd2, -, -, -, -, -, -, -, hv2⟩ := digitCh_facts (n % 10) (by omega)
  have harith : 10 * (n / 10) + n % 10 = n := by omega
  simp only [pad2, List.cons_append, List.nil_append, parse_y2, hd1, hd2,
    Bool.and_self, if_true, hv1, hv2, harith]

theorem parse_d_pad2 (n : Nat) (h1 : 1 ≤ n) (h2 : n ≤ 31) (rest : PyStr) :
    parse_d (pad2 n ++ rest) = some (n, rest) := by
  interval_cases n <;> rfl

theorem parse_m_pad2 (n : Nat) (h1 : 1 ≤ n) (h2 : n ≤ 12) (rest : PyStr) :
    parse_m (pad2 n ++ rest) = some (n, rest) := by
  interval_cases n <;> rfl

theorem parse_b_monthU (m : Nat) (h1 : 1 ≤ m) (h2 : m ≤ 12) (rest : PyStr) :
    parse_b (monthU m ++ rest) = some (m, rest) := by
  interval_cases m <;> rfl

theorem pyUpper_monthMixed (m : Nat) (h1 : 1 ≤ m) (h2 : m ≤ 12) :
    pyUpper (monthMixed m) = monthU m := by
  interval_cases m <;> rfl

theorem monthU_no_dash (m : Nat) (h1 : 1 ≤ m) (h2 : m ≤ 12) :
    ∀ c ∈ monthU m, c ≠ '-' := by
  interval_cases m <;> decide

theorem pad2_no_dash (n : Nat) (hn : n < 100) : ∀ c ∈ pad2 n, c ≠ '-' := by
  intro c hc
  rcases List.mem_cons.mp hc with h | h
  · obtain ⟨-, -, -, -, hnd, -⟩ := digitCh_facts (n / 10) (by omega)
    rw [h]; exact hnd
  · rcases List.mem_cons.mp h with h | h
    · obtain ⟨-, -, -, -, hnd, -⟩ := digitCh_facts (n % 10) (by omega)
      rw [h]; exact hnd
    · cases h

theorem pad2_digits (n : Nat) (hn : n < 100) : ∀ c ∈ pad2 n, isDigitCh c = true := by
  intro c hc
  rcases List.mem_cons.mp hc with h | h
  · obtain ⟨hd, -⟩ := digitCh_facts (n / 10) (by omega)
    rw [h]; exact hd
  · rcases List.mem_cons.mp h with h | h
    · obtain ⟨hd, -⟩ := digitCh_facts (n % 10) (by omega)
      rw [h]; exact hd
    · cases h

theorem pyUpper_pad2 (n : Nat) (hn : n < 100) : pyUpper (pad2 n) = pad2 n := by
  obtain ⟨-, -, -, -, -, -, -, hu1, -⟩ := digitCh_facts (n / 10) (by omega)
  obtain ⟨-, -, -, -, -, -, -, hu2, -⟩ := digitCh_facts (n % 10) (by omega)
  simp [pyUpper, pad2, hu1, hu2]

theorem strptime_dby_canon (day mon y2 : Nat) (hd1 : 1 ≤ day)
    (hd2 : day ≤ daysInMonth (century y2) mon) (hm1 : 1 ≤ mon) (hm2 : mon ≤ 12)
    (hy : y2 < 100) :
    strptime_dby (pad2 day ++ monthU mon ++ pad2 y2)
      = some ⟨century y2, mon, day⟩ := by
  have hd31 : day ≤ 31 := le_trans hd2 (daysInMonth_le_31 _ _)
  have hpy : parse_y2 (pad2 y2 ++ ([] : PyStr)) = some (y2, []) :=
    parse_y2_pad2 y2 hy []
  rw [List.append_nil] at hpy
  simp only [strptime_dby, List.append_assoc,
    parse_d_pad2 day hd1 hd31 (monthU mon ++ pad2 y2),
    parse_b_monthU mon hm1 hm2 (pad2 y2), hpy]
  simp [hd2]

theorem strptime_mdy_canon (day mon y2 : Nat) (hd1 : 1 ≤ day)
    (hd2 : day ≤ daysInMonth (century y2) mon) (hm1 : 1 ≤ mon) (hm2 : mon ≤ 12)
    (hy : y2 < 100) :
    strptime_mdy (pad2 mon ++ '/' :: pad2 day ++ '/' :: pad2 y2)
      = some ⟨century y2, mon, day⟩ := by
  have hd31 : day ≤ 31 := le_trans hd2 (daysInMonth_le_31 _ _)
  have hpy : parse_y2 (pad2 y2 ++ ([] : PyStr)) = some (y2, []) :=
    parse_y2_pad2 y2 hy []
  rw [List.append_nil] at hpy
  simp only [strptime_mdy, List.append_assoc, List.cons_append,
    parse_m_pad2 mon hm1 hm2 ('/' :: (pad2 day ++ '/' :: pad2 y2)),
    parse_d_pad2 day hd1 hd31 ('/' :: pad2 y2), hpy]
  simp [hd2]

theorem strftime_mdy_canon (day mon y2 : Nat) (hy : y2 < 100) :
    strftime_mdy ⟨century y2, mon, day⟩
      = pad2 mon ++ '/' :: pad2 day ++ '/' :: pad2 y2 := by
  simp [strftime_mdy, century_mod y2 hy]

theorem strftime_dby_upper_canon (day mon y2 : Nat) (hd : day < 100)
    (hm1 : 1 ≤ mon) (hm2 : mon ≤ 12) (hy : y2 < 100) :
    pyUpper (strftime_dby ⟨century y2, mon, day⟩)
      = pad2 day ++ monthU mon ++ pad2 y2 := by
  have h1 : List.map toUpperCh (pad2 day) = pad2 day := pyUpper_pad2 day hd
  have h2 : List.map toUpperCh (monthMixed mon) = monthU mon :=
    pyUpper_monthMixed mon hm1 hm2
  have h3 : List.map toUpperCh (pad2 y2) = pad2 y2 := pyUpper_pad2 y2 hy
  simp only [strftime_dby, century_mod y2 hy, pyUpper, List.map_append, h1, h2, h3]

theorem wordCh_ne_dash {c : Char} (h : isWordCh c = true) : c ≠ '-' := by
  intro he
  rw [he] at h
  exact absurd h (by decide)

theorem digitDotCh_ne_dash {c : Char} (h : isDigitDotCh c = true) : c ≠ '-' := by
  intro he
  rw [he] at h
  exact absurd h (by decide)

theorem takeW_digits_pad2 (n : Nat) (hn : n < 100) (c : Char) (rest : PyStr)
    (hc : isDigitCh c = false) :
    takeW isDigitCh (pad2 n ++ c :: rest) = pad2 n ∧
    dropW isDigitCh (pad2 n ++ c :: rest) = c :: rest :=
  ⟨takeW_app _ _ _ _ (pad2_digits n hn) hc, dropW_app _ _ _ _ (pad2_digits n hn) hc⟩

theorem to_bbg_canon (sym : PyStr) (day mon y2 : Nat) (strike : PyStr) (kind : Char)
    (hsym_nd : ∀ c ∈ sym, c ≠ '-')
    (hstrike_nd : ∀ c ∈ strike, c ≠ '-')
    (hkind : kind ≠ '-')
    (hd1 : 1 ≤ day) (hd2 : day ≤ daysInMonth (century y2) mon)
    (hm1 : 1 ≤ mon) (hm2 : mon ≤ 12) (hy : y2 < 100) :
    to_bbg_option_ticker (canonName sym day mon y2 strike kind)
      = some (sym ++ ' ' :: S "US" ++ ' '
          :: (pad2 mon ++ '/' :: pad2 day ++ '/' :: pad2 y2)
          ++ ' ' :: [kind] ++ strike ++ ' ' :: S "Equity") := by
  have hd31 : day ≤ 31 := le_trans hd2 (daysInMonth_le_31 _ _)
  have hdate_nd : ∀ c ∈ pad2 day ++ monthU mon ++ pad2 y2, c ≠ '-' := by
    intro c hc
    rcases List.mem_append.mp hc with h | h
    · rcases List.mem_append.mp h with h | h
      · exact pad2_no_dash day (by omega) c h
      · exact monthU_no_dash mon hm1 hm2 c h
    · exact pad2_no_dash y2 hy c h
  have e1 : canonName sym day mon y2 strike kind
      = sym ++ '-' :: ((pad2 day ++ monthU mon ++ pad2 y2)
          ++ '-' :: (strike ++ '-' :: [kind])) := by
    simp [canonName, List.append_assoc]
  have s4 : splitOnCh '-' [kind] = [[kind]] := by
    refine splitOnCh_no_sep '-' [kind] ?_
    intro c hc
    rw [List.mem_singleton.mp hc]
    exact hkind
  have hsplit : splitOnCh '-' (canonName sym day mon y2 strike kind)
      = [sym, pad2 day ++ monthU mon ++ pad2 y2, strike, [kind]] := by
    rw [e1,
      splitOnCh_append '-' sym _ hsym_nd,
      splitOnCh_append '-' (pad2 day ++ monthU mon ++ pad2 y2) _ hdate_nd,
      splitOnCh_append '-' strike _ hstrike_nd,
      s4]
  simp only [to_bbg_option_ticker, hsplit, List.length_cons, List.length_nil,
    strptime_dby_canon day mon y2 hd1 hd2 hm1 hm2 hy,
    strftime_mdy_canon day mon y2 hy]
  norm_num

theorem bbgRegexMatch_canon (sym strike : PyStr) (kind : Char) (day mon y2 : Nat)
    (hsym : ∀ c ∈ sym, isWordCh c = true) (hsymne : sym ≠ [])
    (hkind : kind = 'C' ∨ kind = 'P')
    (hstrike : ∀ c ∈ strike, isDigitDotCh c = true) (hstrikene : strike ≠ [])
    (hdlt : day < 100) (hmlt : mon < 100) (hylt : y2 < 100) :
    bbgRegexMatch (sym ++ ' ' :: S "US" ++ ' '
        :: (pad2 mon ++ '/' :: pad2 day ++ '/' :: pad2 y2)
        ++ ' ' :: [kind] ++ strike ++ ' ' :: S "Equity")
      = some (sym, pad2 mon ++ '/' :: pad2 day ++ '/' :: pad2 y2, kind, strike) := by
  have hkind_nsp : isSpaceCh kind = false := by
    rcases hkind with h | h <;> rw [h] <;> decide
  have h0 : sym ++ ' ' :: S "US" ++ ' '
        :: (pad2 mon ++ '/' :: pad2 day ++ '/' :: pad2 y2)
        ++ ' ' :: [kind] ++ strike ++ ' ' :: S "Equity"
      = sym ++ ' ' :: ('U' :: 'S' :: ' '
          :: (pad2 mon ++ '/' :: (pad2 day ++ '/' :: (pad2 y2 ++ ' '
            :: (kind :: (strike ++ ' ' :: S "Equity")))))) := by
    simp [S, List.append_assoc, List.cons_append]
  have t1 : takeW isWordCh (sym ++ ' ' :: ('U' :: 'S' :: ' '
        :: (pad2 mon ++ '/' :: (pad2 day ++ '/' :: (pad2 y2 ++ ' '
          :: (kind :: (strike ++ ' ' :: S "Equity"))))))) = sym :=
    takeW_app _ _ _ _ hsym (by decide)
  have d1 : dropW isWordCh (sym ++ ' ' :: ('U' :: 'S' :: ' '
        :: (pad2 mon ++ '/' :: (pad2 day ++ '/' :: (pad2 y2 ++ ' '
          :: (kind :: (strike ++ ' ' :: S "Equity")))))))
      = ' ' :: ('U' :: 'S' :: ' ' :: (pad2 mon ++ '/' :: (pad2 day ++ '/'
          :: (pad2 y2 ++ ' ' :: (kind :: (strike ++ ' ' :: S "Equity")))))) :=
    dropW_app _ _ _ _ hsym (by decide)
  have t2 : takeW isSpaceCh (' ' :: ('U' :: 'S' :: ' '
        :: (pad2 mon ++ '/' :: (pad2 day ++ '/' :: (pad2 y2 ++ ' '
          :: (kind :: (strike ++ ' ' :: S "Equity"))))))) = [' '] :=
    takeW_app isSpaceCh [' '] _ 'U' (by decide) (by decide)
  have d2 : dropW isSpaceCh (' ' :: ('U' :: 'S' :: ' '
        :: (pad2 mon ++ '/' :: (pad2 day ++ '/' :: (pad2 y2 ++ ' '
          :: (kind :: (strike ++ ' ' :: S "Equity")))))))
      = 'U' :: 'S' :: ' ' :: (pad2 mon ++ '/' :: (pad2 day ++ '/'
          :: (pad2 y2 ++ ' ' :: (kind :: (strike ++ ' ' :: S "Equity"))))) :=
    dropW_app isSpaceCh [' '] _ 'U' (by decide) (by decide)
  have t3 : takeW isWordCh ('U' :: 'S' :: ' '
        :: (pad2 mon ++ '/' :: (pad2 day ++ '/' :: (pad2 y2 ++ ' '
          :: (kind :: (strike ++ ' ' :: S "Equity")))))) = ['U', 'S'] :=
    takeW_app isWordCh ['U', 'S'] _ ' ' (by decide) (by decide)
  have d3 : dropW isWordCh ('U' :: 'S' :: ' '
        :: (pad2 mon ++ '/' :: (pad2 day ++ '/' :: (pad2 y2 ++ ' '
          :: (kind :: (strike ++ ' ' :: S "Equity"))))))
      = ' ' :: (pad2 mon ++ '/' :: (pad2 day ++ '/' :: (pad2 y2 ++ ' '
          :: (kind :: (strike ++ ' ' :: S "Equity"))))) :=
    dropW_app isWordCh ['U', 'S'] _ ' ' (by decide) (by decide)
  have hm0 : isSpaceCh (digitCh (mon / 10)) = false :=
    (digitCh_facts (mon / 10) (by omega)).2.2.1
  have t4 : takeW isSpaceCh (' ' :: (pad2 mon ++ '/' :: (pad2 day ++ '/'
        :: (pad2 y2 ++ ' ' :: (kind :: (strike ++ ' ' :: S "Equity")))))) = [' '] :=
    takeW_app isSpaceCh [' '] _ (digitCh (mon / 10)) (by decide) hm0
  have d4 : dropW isSpaceCh (' ' :: (pad2 mon ++ '/' :: (pad2 day ++ '/'
        :: (pad2 y2 ++ ' ' :: (kind :: (strike ++ ' ' :: S "Equity"))))))
      = pad2 mon ++ '/' :: (pad2 day ++ '/' :: (pad2 y2 ++ ' '
          :: (kind :: (strike ++ ' ' :: S "Equity")))) :=
    dropW_app isSpaceCh [' '] _ (digitCh (mon / 10)) (by decide) hm0
  obtain ⟨ta, da⟩ := takeW_digits_pad2 mon hmlt '/'
    (pad2 day ++ '/' :: (pad2 y2 ++ ' ' :: (kind :: (strike ++ ' ' :: S "Equity"))))
    (by decide)
  obtain ⟨tb, db⟩ := takeW_digits_pad2 day hdlt '/'
    (pad2 y2 ++ ' ' :: (kind :: (strike ++ ' ' :: S "Equity"))) (by decide)
  obtain ⟨tc, dc⟩ := takeW_digits_pad2 y2 hylt ' '
    (kind :: (strike ++ ' ' :: S "Equity")) (by decide)
  have t5 : takeW isSpaceCh (' ' :: (kind :: (strike ++ ' ' :: S "Equity"))) = [' '] :=
    takeW_app isSpaceCh [' '] _ kind (by decide) hkind_nsp
  have d5 : dropW isSpaceCh (' ' :: (kind :: (strike ++ ' ' :: S "Equity")))
      = kind :: (strike ++ ' ' :: S "Equity") :=
    dropW_app isSpaceCh [' '] _ kind (by decide) hkind_nsp
  have t6 : takeW isDigitDotCh (strike ++ ' ' :: S "Equity") = strike :=
    takeW_app _ _ _ _ hstrike (by decide)
  have d6 : dropW isDigitDotCh (strike ++ ' ' :: S "Equity") = ' ' :: S "Equity" :=
    dropW_app _ _ _ _ hstrike (by decide)
  have t7 : takeW isSpaceCh (' ' :: S "Equity") = [' '] :=
    takeW_app isSpaceCh [' '] _ 'E' (by decide) (by decide)
  have d7 : dropW isSpaceCh (' ' :: S "Equity") = S "Equity" :=
    dropW_app isSpaceCh [' '] _ 'E' (by decide) (by decide)
  rw [h0]
  simp only [bbgRegexMatch, t1, d1, t2, d2, t3, d3, t4, d4, ta, da, tb, db, tc, dc,
    t5, d5, t6, d6, t7, d7]
  simp [hsymne, hstrikene, hkind, pad2]

theorem parse_bbg_canon (sym strike : PyStr) (kind : Char) (day mon y2 : Nat) (q : ℚ)
    (hsym : ∀ c ∈ sym, isWordCh c = true) (hsymne : sym ≠ [])
    (hkind : kind = 'C' ∨ kind = 'P')
    (hstrike : ∀ c ∈ strike, isDigitDotCh c = true) (hstrikene : strike ≠ [])
    (hd1 : 1 ≤ day) (hd2 : day ≤ daysInMonth (century y2) mon)
    (hm1 : 1 ≤ mon) (hm2 : mon ≤ 12) (hy : y2 < 100)
    (hpf : pyFloat strike = some q) :
    parse_bbg_to_app (sym ++ ' ' :: S "US" ++ ' '
        :: (pad2 mon ++ '/' :: pad2 day ++ '/' :: pad2 y2)
        ++ ' ' :: [kind] ++ strike ++ ' ' :: S "Equity")
      = .ok (some { instrument_name := sym ++ '-'
                      :: (pad2 day ++ monthU mon ++ pad2 y2)
                      ++ '-' :: formatG q ++ ['-', kind],
                    expiration_timestamp :=
                      some ((epochDays ⟨century y2, mon, day⟩ : ℚ) * 86400000),
                    base_currency := some sym,
                    quote_currency := some (S "USD") }) := by
  have hd31 : day ≤ 31 := le_trans hd2 (daysInMonth_le_31 _ _)
  simp only [parse_bbg_to_app,
    bbgRegexMatch_canon sym strike kind day mon y2 hsym hsymne hkind hstrike
      hstrikene (by omega) (by omega) hy,
    strptime_mdy_canon day mon y2 hd1 hd2 hm1 hm2 hy,
    strftime_dby_upper_canon day mon y2 (by omega) hm1 hm2 hy, hpf]

/-- C2 as amended: the translator round trip is the identity for every
well-formed canonical option name whose symbol consists of word characters,
whose day token is written with two digits and denotes a calendar-valid date
for its month and (century-mapped) year, and whose strike string is a
fixpoint of the float-then-percent-g renormalisation the reverse translation
applies.  (One-digit days are zero-padded on the way back, grammar-valid but
calendar-invalid dates fail the forward translation, and strikes such as 07
or 1000000 are renormalised; see the counterexample.) -/
theorem c2_roundtrip_amended (sym strike : PyStr) (kind : Char)
    (day mon y2 : Nat) (q : ℚ)
    (hsym : ∀ c ∈ sym, isWordCh c = true) (hsymne : sym ≠ [])
    (hkind : kind = 'C' ∨ kind = 'P')
    (hstrike : ∀ c ∈ strike, isDigitDotCh c = true) (hstrikene : strike ≠ [])
    (hd1 : 1 ≤ day) (hd2 : day ≤ daysInMonth (century y2) mon)
    (hm1 : 1 ≤ mon) (hm2 : mon ≤ 12) (hy : y2 < 100)
    (hpf : pyFloat strike = some q) (hfg : formatG q = strike) :
    roundTripName (canonName sym day mon y2 strike kind)
      = .ok (some (canonName sym day mon y2 strike kind)) := by
  have hsym_nd : ∀ c ∈ sym, c ≠ '-' := fun c hc => wordCh_ne_dash (hsym c hc)
  have hstrike_nd : ∀ c ∈ strike, c ≠ '-' :=
    fun c hc => digitDotCh_ne_dash (hstrike c hc)
  have hkind_nd : kind ≠ '-' := by rcases hkind with h | h <;> rw [h] <;> decide
  simp only [roundTripName,
    to_bbg_canon sym day mon y2 strike kind hsym_nd hstrike_nd hkind_nd
      hd1 hd2 hm1 hm2 hy,
    parse_bbg_canon sym strike kind day mon y2 q hsym hsymne hkind hstrike
      hstrikene hd1 hd2 hm1 hm2 hy hpf,
    hfg]
  simp [canonName, List.append_assoc]

/-- Witness for C2 as amended at SPY-20FEB26-688-C, the round-trip example
of the specification. -/
theorem c2_roundtrip_witness :
    roundTripName (S "SPY-20FEB26-688-C")
      = .ok (some (S "SPY-20FEB26-688-C")) := by
  have hc : canonName (S "SPY") 20 2 26 (S "688") 'C' = S "SPY-20FEB26-688-C" := by
    decide
  have h := c2_roundtrip_amended (S "SPY") (S "688") 'C' 20 2 26 688
    (by decide) (by decide) (by decide) (by decide) (by decide)
    (by decide) (by decide) (by decide) (by decide) (by decide)
    (by decide) (by decide)
  rw [hc] at h
  exact h

/-- C2 counterexample: SPY-5FEB26-688-C is well formed per the section-3
grammar (one-digit day), but the round trip returns SPY-05FEB26-688-C, the
day zero-padded by the reverse strftime, which differs from the input. -/
theorem c2_counterexample :
    roundTripName (S "SPY-5FEB26-688-C") = .ok (some (S "SPY-05FEB26-688-C")) ∧
    S "SPY-05FEB26-688-C" ≠ S "SPY-5FEB26-688-C" := by
  exact ⟨by decide, by decide⟩

/-- Witness for C6 at a concrete session: two overlapping calls, every sent
vendor name distinct. -/
theorem c6_bbg_dedup_witness :
    (sentBbgNames (runBbgSubs bbgLive [[S "SPY"], [S "SPY", S "QQQ"]]).2).Nodup :=
  (c6_bbg_dedup bbgLive [[S "SPY"], [S "SPY", S "QQQ"]]).1
